import Mathlib

/-!
# Verification of the Rate Limiting & Cache Coordination Layer

Shallow embedding of `app/core/rate_limit.py` and `app/core/cache.py`
(the sliding-window rate limiter, the cache-aside decorator layer, the
JSON serializer and the cache-key generator), together with proofs of
the behavioural properties stated in the specification.

Modelling conventions:
* Wall-clock time (`time.time()`, a float number of seconds) is modelled
  as `ℚ`.
* The Redis server is an external collaborator; it is modelled as an
  explicit state value (association lists of keys).  A `healthy` flag
  models "any store call raises an error" (connection loss, timeout,
  protocol error): when the flag is false every store call raises and
  the Python `except` branches fire.
* `async` functions are pure state-passing functions: they take the
  store state and return the updated store state along with their
  result.
* Python `int` is `Int`; the sorted-set cardinality returned by `ZCARD`
  is `Nat`.
-/

namespace ApiPerf

/-! ## Rate limiter (`app/core/rate_limit.py`) -/

/-- `RateLimitConfig` dataclass of `rate_limit.py` (requests, period_seconds,
and the key prefix — the source field is spelled like the Lean keyword, so it
is rendered `pfx` here).  The spec's data model declares both integers
positive. -/
structure RateLimitConfig where
  requests : Int
  period_seconds : Int
  pfx : String := "ratelimit"
deriving Repr, DecidableEq

/-- State of the Redis server as seen by the rate limiter.  Each key holds a
sorted set; each member added by `is_rate_limited` is `str(now)` with score
`now`, and `repr` is injective on distinct floats, so a member is faithfully
represented by its score alone.  `deadlines` records the key expiry installed
by the pipeline's `EXPIRE` command (key-level expiry is subsumed by the
`ZREMRANGEBYSCORE` prune for every counting purpose: an expired key's entries
are all older than the window and are pruned anyway).  `healthy = false`
models "any store call raises". -/
structure RLStore where
  sets : List (String × List ℚ)
  deadlines : List (String × ℚ)
  healthy : Bool
deriving Repr, DecidableEq

/-- The sorted set stored at `k` (`[]` when the key is absent). -/
def lookupSet (st : RLStore) (k : String) : List ℚ :=
  (st.sets.lookup k).getD []

/-- Replace the association for key `k`. -/
def updateAssoc {α : Type} (m : List (String × α)) (k : String) (v : α) :
    List (String × α) :=
  (k, v) :: m.filter (fun p => !(p.1 == k))

/-- `ZADD key {str(now): now}`: adds a member; re-adding an existing member
only updates its score, leaving cardinality unchanged. -/
def zadd (l : List ℚ) (t : ℚ) : List ℚ :=
  if t ∈ l then l else t :: l

/-- `ZREMRANGEBYSCORE key lo hi`: removes members with score in `[lo, hi]`. -/
def zremrangebyscore (l : List ℚ) (lo hi : ℚ) : List ℚ :=
  l.filter (fun s => !(decide (lo ≤ s) && decide (s ≤ hi)))

/-- `ZCARD`. -/
def zcard (l : List ℚ) : Nat := l.length

/-- Python float `%`: for `b > 0` the result lies in `[0, b)` whatever the
sign of `a` (the model is only used with `b > 0`; the code would raise
`ZeroDivisionError` for `b = 0`, a configuration the spec's data model
excludes). -/
def fmod (a b : ℚ) : ℚ := a - b * ⌊a / b⌋

/-- Python `int()` applied to a float: truncation toward zero. -/
def pyTrunc (q : ℚ) : Int := if 0 ≤ q then ⌊q⌋ else ⌈q⌉

/-- `RateLimiter.is_rate_limited` (rate_limit.py lines 95-149).
Returns the updated store and the triple
`(is_limited, requests_remaining, reset_time)`.

* not initialized → `(False, config.requests, config.period_seconds)`
  without touching the store;
* any store error (`healthy = false`) → same fail-open triple, logged;
* otherwise one atomic pipeline: `ZADD` the current timestamp, prune
  scores in `[0, now - period]`, read the cardinality, refresh the key
  expiry; then
  `requests_remaining = max(0, requests - count)`,
  `reset_time = int(period - now % period)`,
  `is_limited = count > requests`. -/
def is_rate_limited (initialized : Bool) (st : RLStore) (now : ℚ)
    (key : String) (config : RateLimitConfig) :
    RLStore × Bool × Int × Int :=
  if !initialized then
    (st, false, config.requests, config.period_seconds)
  else if !st.healthy then
    (st, false, config.requests, config.period_seconds)
  else
    let key_name := config.pfx ++ ":" ++ key
    let l1 := zadd (lookupSet st key_name) now
    let window_start := now - (config.period_seconds : ℚ)
    let l2 := zremrangebyscore l1 0 window_start
    let request_count := zcard l2
    let st' : RLStore :=
      { st with
        sets := updateAssoc st.sets key_name l2,
        deadlines := updateAssoc st.deadlines key_name
          (now + (config.period_seconds : ℚ)) }
    let requests_remaining := max 0 (config.requests - request_count)
    let reset_time := pyTrunc ((config.period_seconds : ℚ) -
      fmod now (config.period_seconds : ℚ))
    let is_limited := decide ((request_count : Int) > config.requests)
    (st', is_limited, requests_remaining, reset_time)

/-- The window count of a call: cardinality of the per-client sorted set
after the pipeline's add-then-prune steps. -/
def windowCount (st : RLStore) (now : ℚ) (key : String)
    (config : RateLimitConfig) : Nat :=
  zcard (zremrangebyscore
    (zadd (lookupSet st (config.pfx ++ ":" ++ key)) now)
    0 (now - (config.period_seconds : ℚ)))

/-- Sequential requests from one identity: thread the store through
successive `is_rate_limited` calls at the given timestamps, collecting
each call's `(is_limited, remaining, reset)` triple. -/
def runRequests (initialized : Bool) (key : String)
    (config : RateLimitConfig) :
    RLStore → List ℚ → RLStore × List (Bool × Int × Int)
  | st, [] => (st, [])
  | st, t :: ts =>
    let r := is_rate_limited initialized st t key config
    let rest := runRequests initialized key config r.1 ts
    (rest.1, r.2 :: rest.2)

/-! ## MD5 (`hashlib.md5(...).hexdigest()`), RFC 1321

Operates on the UTF-8 bytes of the hashed string (`str.encode()`), modelled
as `Nat` values `< 256`; 32-bit registers are `Nat` reduced `% 2^32`. -/

/-- UTF-8 encoding of one character (`str.encode()`). -/
def utf8Bytes (c : Char) : List Nat :=
  let n := c.toNat
  if n < 0x80 then [n]
  else if n < 0x800 then [0xc0 + n / 64, 0x80 + n % 64]
  else if n < 0x10000 then
    [0xe0 + n / 4096, 0x80 + n / 64 % 64, 0x80 + n % 64]
  else
    [0xf0 + n / 0x40000, 0x80 + n / 4096 % 64, 0x80 + n / 64 % 64,
     0x80 + n % 64]

/-- UTF-8 bytes of a string. -/
def strBytes (s : String) : List Nat := (s.data.map utf8Bytes).flatten

/-- 32-bit left rotation. -/
def rotl32 (x s : Nat) : Nat := ((x <<< s) ||| (x >>> (32 - s))) % 2 ^ 32

/-- Bitwise NOT on 32 bits. -/
def not32 (x : Nat) : Nat := x ^^^ 0xffffffff

/-- The 64 MD5 sine-derived constants `K[i] = ⌊2^32·|sin(i+1)|⌋`. -/
def md5K : List Nat :=
  [0xd76aa478, 0xe8c7b756, 0x242070db, 0xc1bdceee,
   0xf57c0faf, 0x4787c62a, 0xa8304613, 0xfd469501,
   0x698098d8, 0x8b44f7af, 0xffff5bb1, 0x895cd7be,
   0x6b901122, 0xfd987193, 0xa679438e, 0x49b40821,
   0xf61e2562, 0xc040b340, 0x265e5a51, 0xe9b6c7aa,
   0xd62f105d, 0x02441453, 0xd8a1e681, 0xe7d3fbc8,
   0x21e1cde6, 0xc33707d6, 0xf4d50d87, 0x455a14ed,
   0xa9e3e905, 0xfcefa3f8, 0x676f02d9, 0x8d2a4c8a,
   0xfffa3942, 0x8771f681, 0x6d9d6122, 0xfde5380c,
   0xa4beea44, 0x4bdecfa9, 0xf6bb4b60, 0xbebfbc70,
   0x289b7ec6, 0xeaa127fa, 0xd4ef3085, 0x04881d05,
   0xd9d4d039, 0xe6db99e5, 0x1fa27cf8, 0xc4ac5665,
   0xf4292244, 0x432aff97, 0xab9423a7, 0xfc93a039,
   0x655b59c3, 0x8f0ccc92, 0xffeff47d, 0x85845dd1,
   0x6fa87e4f, 0xfe2ce6e0, 0xa3014314, 0x4e0811a1,
   0xf7537e82, 0xbd3af235, 0x2ad7d2bb, 0xeb86d391]

/-- The per-step left-rotation amounts. -/
def md5S : List Nat :=
  [7, 12, 17, 22, 7, 12, 17, 22, 7, 12, 17, 22, 7, 12, 17, 22,
   5, 9, 14, 20, 5, 9, 14, 20, 5, 9, 14, 20, 5, 9, 14, 20,
   4, 11, 16, 23, 4, 11, 16, 23, 4, 11, 16, 23, 4, 11, 16, 23,
   6, 10, 15, 21, 6, 10, 15, 21, 6, 10, 15, 21, 6, 10, 15, 21]

/-- The round mixing function. -/
def md5F (i b c d : Nat) : Nat :=
  if i < 16 then (b &&& c) ||| (not32 b &&& d)
  else if i < 32 then (d &&& b) ||| (not32 d &&& c)
  else if i < 48 then b ^^^ c ^^^ d
  else c ^^^ (b ||| not32 d)

/-- The message-word schedule. -/
def md5G (i : Nat) : Nat :=
  if i < 16 then i
  else if i < 32 then (5 * i + 1) % 16
  else if i < 48 then (3 * i + 5) % 16
  else (7 * i) % 16

/-- One of the 64 steps of a chunk, acting on `(a, b, c, d)`. -/
def md5Step (M : List Nat) (st : Nat × Nat × Nat × Nat) (i : Nat) :
    Nat × Nat × Nat × Nat :=
  let a := st.1
  let b := st.2.1
  let c := st.2.2.1
  let d := st.2.2.2
  let f := (md5F i b c d + a + md5K.getD i 0 + M.getD (md5G i) 0) % 2 ^ 32
  (d, (b + rotl32 f (md5S.getD i 0)) % 2 ^ 32, b, c)

/-- Little-endian 32-bit words of a 64-byte chunk. -/
def bytesToWords : List Nat → List Nat
  | b0 :: b1 :: b2 :: b3 :: rest =>
    (b0 + 256 * b1 + 65536 * b2 + 16777216 * b3) :: bytesToWords rest
  | _ => []

/-- Process one 64-byte chunk. -/
def md5Chunk (st : Nat × Nat × Nat × Nat) (chunk : List Nat) :
    Nat × Nat × Nat × Nat :=
  let M := bytesToWords chunk
  let r := (List.range 64).foldl (md5Step M) st
  ((st.1 + r.1) % 2 ^ 32, (st.2.1 + r.2.1) % 2 ^ 32,
   (st.2.2.1 + r.2.2.1) % 2 ^ 32, (st.2.2.2 + r.2.2.2) % 2 ^ 32)

/-- Little-endian 64-bit length tail. -/
def le64 (n : Nat) : List Nat :=
  [n % 256, n / 2 ^ 8 % 256, n / 2 ^ 16 % 256, n / 2 ^ 24 % 256,
   n / 2 ^ 32 % 256, n / 2 ^ 40 % 256, n / 2 ^ 48 % 256, n / 2 ^ 56 % 256]

/-- MD5 padding: `0x80`, zeros to 56 mod 64, then the bit length. -/
def md5Pad (msg : List Nat) : List Nat :=
  let len := msg.length
  let zeros := (120 - (len + 1) % 64) % 64
  msg ++ 0x80 :: List.replicate zeros 0 ++ le64 (8 * len % 2 ^ 64)

/-- Split into 64-byte chunks. -/
def chunks64 (l : List Nat) : List (List Nat) :=
  if h : l = [] then [] else l.take 64 :: chunks64 (l.drop 64)
termination_by l.length
decreasing_by
  simp only [List.length_drop]
  have : 0 < l.length := List.length_pos.mpr h
  omega

/-- Lowercase hex digit. -/
def hexDigitChar (n : Nat) : Char :=
  if n < 10 then Char.ofNat (48 + n) else Char.ofNat (87 + n)

/-- Two lowercase hex digits of a byte. -/
def byteHex (b : Nat) : List Char := [hexDigitChar (b / 16), hexDigitChar (b % 16)]

/-- Little-endian bytes of a 32-bit register. -/
def wordLEBytes (w : Nat) : List Nat :=
  [w % 256, w / 256 % 256, w / 65536 % 256, w / 16777216 % 256]

/-- `hashlib.md5(bytes).hexdigest()`. -/
def md5Hex (msg : List Nat) : String :=
  let st := (chunks64 (md5Pad msg)).foldl md5Chunk
    (0x67452301, 0xefcdab89, 0x98badcfe, 0x10325476)
  String.mk ((((wordLEBytes st.1 ++ wordLEBytes st.2.1 ++
    wordLEBytes st.2.2.1 ++ wordLEBytes st.2.2.2).map byteHex).flatten))

/-! ## Cache key generation (`generate_cache_key`, cache.py lines 348-390) -/

/-- One argument passed to `generate_cache_key`, as classified by its
`isinstance` chain.  Each constructor carries the string that the
corresponding conversion produces in Python: `model_dump_json()` for a
pydantic `BaseModel`, `str(arg.value)` for an `Enum`,
`json.dumps(jsonable_encoder(arg))` for a SQLAlchemy `Base` model, and
`str(arg)` otherwise. -/
inductive CacheArg where
  | baseModel (dumpJson : String)
  | enumArg (valueStr : String)
  | sqlModel (encJson : String)
  | other (str : String)
deriving Repr, DecidableEq

/-- The string contributed by an argument (positional form; a keyword
argument contributes `"{k}:" ++` the same string). -/
def argStr : CacheArg → String
  | .baseModel j => j
  | .enumArg v => v
  | .sqlModel j => j
  | .other s => s

/-- `sorted(kwargs.keys())`: Python sorts the `dict` keys lexicographically;
the model sorts the (key, value) pairs by key. -/
def sortKwargs (kwargs : List (String × CacheArg)) : List (String × CacheArg) :=
  kwargs.mergeSort (fun a b => a.1 ≤ b.1)

/-- `generate_cache_key(prefix, *args, **kwargs)`: positional parts, then
keyword parts sorted by key, joined with `":"`, then
`f"{prefix}:{md5(key_str).hexdigest()}"`. -/
def generate_cache_key (pfx : String) (args : List CacheArg)
    (kwargs : List (String × CacheArg)) : String :=
  let key_parts := pfx :: (args.map argStr ++
    (sortKwargs kwargs).map (fun p => p.1 ++ ":" ++ argStr p.2))
  let key_str := String.intercalate ":" key_parts
  pfx ++ ":" ++ md5Hex (strBytes key_str)

/-! ## JSON values (`app/core/cache.py` serialization layer)

`PyVal` is the universe of serializable Python values handled by
`RedisCache._serialize` / `_deserialize`: primitives, lists, string-keyed
dicts, and `Decimal`-like values.

Numbers: Python floats are binary, but `json.dumps` writes `repr(f)` — the
shortest decimal literal that parses back to the same float — and
`json.loads` parses it back, so at the observable level a float is a decimal
literal; the model represents it directly as `m / 10^e` (constructor
`float m e`).  A `Decimal` (constructor `dec m e`) is encoded by
`CustomJSONEncoder.default` as `float(obj)`; the round-trip property allows
the representable precision loss of that conversion, which the model renders
as value-preserving.  Exponent-form output (`1e+16`) and non-finite floats are
outside the model. -/

inductive PyVal where
  | none
  | bool (b : Bool)
  | int (n : Int)
  | float (m : Int) (e : Nat)
  | dec (m : Int) (e : Nat)
  | str (s : String)
  | list (xs : List PyVal)
  | dict (kvs : List (String × PyVal))
deriving Repr

/-- Python `value is None`. -/
def pyIsNone : PyVal → Bool
  | .none => true
  | _ => false

/-! ### `json.dumps` (with `cls=CustomJSONEncoder`, default separators) -/

/-- Four lowercase hex digits (`'\\u%04x'`). -/
def toHex4 (n : Nat) : List Char :=
  [hexDigitChar (n / 4096 % 16), hexDigitChar (n / 256 % 16),
   hexDigitChar (n / 16 % 16), hexDigitChar (n % 16)]

/-- `json.dumps` string escaping with `ensure_ascii=True` (the default):
`"` and `\\` and the named control escapes, printable ASCII verbatim,
everything else as `\\uXXXX` (a surrogate pair for astral characters). -/
def escapeChar (c : Char) : List Char :=
  if c = '"' then ['\\', '"']
  else if c = '\\' then ['\\', '\\']
  else if c = '\x08' then ['\\', 'b']
  else if c = '\x0c' then ['\\', 'f']
  else if c = '\n' then ['\\', 'n']
  else if c = '\r' then ['\\', 'r']
  else if c = '\t' then ['\\', 't']
  else if 0x20 ≤ c.toNat ∧ c.toNat ≤ 0x7e then [c]
  else if c.toNat < 0x10000 then '\\' :: 'u' :: toHex4 c.toNat
  else
    ('\\' :: 'u' :: toHex4 (0xd800 + (c.toNat - 0x10000) / 1024)) ++
    ('\\' :: 'u' :: toHex4 (0xdc00 + (c.toNat - 0x10000) % 1024))

/-- Decimal digits of a natural number, most significant first
(`[0]` for zero). -/
def natDigits (n : Nat) : List Nat :=
  if n < 10 then [n] else natDigits (n / 10) ++ [n % 10]
termination_by n
decreasing_by exact Nat.div_lt_self (by omega) (by omega)

/-- The numeric value of a digit list. -/
def valDigits (ds : List Nat) : Nat := ds.foldl (fun a d => a * 10 + d) 0

def digitsToChars (ds : List Nat) : List Char :=
  ds.map (fun d => Char.ofNat (48 + d))

/-- `repr` of a Python int. -/
def printInt (m : Int) : List Char :=
  if m < 0 then '-' :: digitsToChars (natDigits m.natAbs)
  else digitsToChars (natDigits m.natAbs)

/-- `repr` of the model float `m / 10^e`: sign, integer digits, `'.'`,
exactly `e` fractional digits (`".0"` when `e = 0`, as Python always prints
a fractional part). -/
def printFloat (m : Int) (e : Nat) : List Char :=
  if e = 0 then printInt m ++ ['.', '0']
  else
    let ds := natDigits m.natAbs
    let padded := List.replicate (e + 1 - ds.length) 0 ++ ds
    (if m < 0 then ['-'] else []) ++
      digitsToChars (padded.take (padded.length - e)) ++
      '.' :: digitsToChars (padded.drop (padded.length - e))

/-- `", ".join`-style separator insertion (`json.dumps` default separators
are `", "` and `": "`). -/
def sepJoin : List (List Char) → List Char
  | [] => []
  | x :: rest => x ++ rest.flatMap (fun y => ',' :: ' ' :: y)

mutual

/-- `json.dumps(value, cls=CustomJSONEncoder)` on the serializable universe;
the encoder's only contribution here is `Decimal → float`. -/
def jsonDumps : PyVal → List Char
  | .none => ['n', 'u', 'l', 'l']
  | .bool false => ['f', 'a', 'l', 's', 'e']
  | .bool true => ['t', 'r', 'u', 'e']
  | .int n => printInt n
  | .float m e => printFloat m e
  | .dec m e => printFloat m e
  | .str s => '"' :: (s.data.flatMap escapeChar) ++ ['"']
  | .list xs => '[' :: sepJoin (jsonDumpsList xs) ++ [']']
  | .dict kvs => '{' :: sepJoin (jsonDumpsDict kvs) ++ ['}']

def jsonDumpsList : List PyVal → List (List Char)
  | [] => []
  | x :: xs => jsonDumps x :: jsonDumpsList xs

def jsonDumpsDict : List (String × PyVal) → List (List Char)
  | [] => []
  | (k, v) :: kvs =>
    ('"' :: (k.data.flatMap escapeChar) ++ ['"', ':', ' '] ++ jsonDumps v) ::
      jsonDumpsDict kvs

end

/-- The printed characters of one dict entry (`'"key": value'`), as emitted
by `jsonDumpsDict`. -/
def entryChars (p : String × PyVal) : List Char :=
  '"' :: (p.1.data.flatMap escapeChar) ++ ['"', ':', ' '] ++ jsonDumps p.2

/-! ### `json.loads` -/

def parseHexDigit (c : Char) : Option Nat :=
  if 48 ≤ c.toNat ∧ c.toNat ≤ 57 then some (c.toNat - 48)
  else if 97 ≤ c.toNat ∧ c.toNat ≤ 102 then some (c.toNat - 87)
  else if 65 ≤ c.toNat ∧ c.toNat ≤ 70 then some (c.toNat - 55)
  else Option.none

def parseHex4 (a b c d : Char) : Option Nat :=
  match parseHexDigit a, parseHexDigit b, parseHexDigit c, parseHexDigit d with
  | some x, some y, some z, some w => some (4096 * x + 256 * y + 16 * z + w)
  | _, _, _, _ => Option.none

def consFst (c : Char) (o : Option (List Char × List Char)) :
    Option (List Char × List Char) :=
  o.map (fun p => (c :: p.1, p.2))

mutual

/-- Scan a JSON string body up to the closing quote, undoing escapes.
A lone surrogate escape is rejected: Lean strings hold scalar values only
(Python would keep it; unreachable from `json.dumps` output). -/
def parseStringBody : List Char → Option (List Char × List Char)
  | [] => Option.none
  | c :: rest =>
    if c = '"' then some ([], rest)
    else if c = '\\' then parseEscape rest
    else consFst c (parseStringBody rest)

def parseEscape : List Char → Option (List Char × List Char)
  | [] => Option.none
  | e :: rest =>
    if e = '"' then consFst '"' (parseStringBody rest)
    else if e = '\\' then consFst '\\' (parseStringBody rest)
    else if e = '/' then consFst '/' (parseStringBody rest)
    else if e = 'b' then consFst '\x08' (parseStringBody rest)
    else if e = 'f' then consFst '\x0c' (parseStringBody rest)
    else if e = 'n' then consFst '\n' (parseStringBody rest)
    else if e = 'r' then consFst '\r' (parseStringBody rest)
    else if e = 't' then consFst '\t' (parseStringBody rest)
    else if e = 'u' then parseU rest
    else Option.none

/-- `\\u` escape: four hex digits must follow. -/
def parseU : List Char → Option (List Char × List Char)
  | a :: b :: c :: d :: rest2 => parseUHex (parseHex4 a b c d) rest2
  | _ => Option.none

/-- Interpret the parsed `\\uXXXX` value: a high surrogate requires a
paired low surrogate, a lone low surrogate is rejected, anything else is
the character itself. -/
def parseUHex : Option Nat → List Char → Option (List Char × List Char)
  | Option.none, _ => Option.none
  | some n, rest2 =>
    if 0xd800 ≤ n ∧ n < 0xdc00 then parseUPair n rest2
    else if 0xdc00 ≤ n ∧ n < 0xe000 then Option.none
    else consFst (Char.ofNat n) (parseStringBody rest2)

/-- After a high surrogate, a second `\\uXXXX` escape must follow. -/
def parseUPair (n : Nat) : List Char → Option (List Char × List Char)
  | bs :: u :: a2 :: b2 :: c2 :: d2 :: rest3 =>
    if bs = '\\' ∧ u = 'u' then
      parseUPair2 n (parseHex4 a2 b2 c2 d2) rest3
    else Option.none
  | _ => Option.none

/-- Combine the surrogate pair into the astral character. -/
def parseUPair2 (n : Nat) : Option Nat → List Char → Option (List Char × List Char)
  | Option.none, _ => Option.none
  | some n2, rest3 =>
    if 0xdc00 ≤ n2 ∧ n2 < 0xe000 then
      consFst (Char.ofNat (0x10000 + 1024 * (n - 0xd800) + (n2 - 0xdc00)))
        (parseStringBody rest3)
    else Option.none

end

/-- Greedy digit scan: accumulated value, digit count, rest. -/
def parseDigitsAux : List Char → Nat → Nat → Nat × Nat × List Char
  | [], acc, cnt => (acc, cnt, [])
  | c :: cs, acc, cnt =>
    if 48 ≤ c.toNat ∧ c.toNat ≤ 57 then
      parseDigitsAux cs (acc * 10 + (c.toNat - 48)) (cnt + 1)
    else (acc, cnt, c :: cs)

/-- JSON number: optional sign, integer digits, optional fraction (exponent
notation is never produced by the modelled printer and is not modelled). -/
def parseNumber (input : List Char) : Option (PyVal × List Char) :=
  let neg : Bool := match input with
    | c :: _ => c = '-'
    | [] => false
  let r1 := if neg then input.tail else input
  let p := parseDigitsAux r1 0 0
  if p.2.1 = 0 then Option.none
  else
    match p.2.2 with
    | c :: r3 =>
      if c = '.' then
        let q := parseDigitsAux r3 0 0
        if q.2.1 = 0 then Option.none
        else
          some (.float
            (if neg then -((p.1 * 10 ^ q.2.1 + q.1 : Nat) : Int)
             else ((p.1 * 10 ^ q.2.1 + q.1 : Nat) : Int)) q.2.1, q.2.2)
      else some (.int (if neg then -(p.1 : Int) else (p.1 : Int)), c :: r3)
    | [] => some (.int (if neg then -(p.1 : Int) else (p.1 : Int)), [])

def isWs (c : Char) : Bool := c = ' ' || c = '\t' || c = '\n' || c = '\r'

def skipWs : List Char → List Char
  | [] => []
  | c :: rest => if isWs c then skipWs rest else c :: rest

/-- The remaining input does not start with a digit or `'.'`, so a greedy
number parse stops exactly at a printed number's end (used to state the
round-trip lemmas; every context the printer produces satisfies it). -/
def numBoundary : List Char → Prop
  | [] => True
  | c :: _ => ¬(48 ≤ c.toNat ∧ c.toNat ≤ 57) ∧ c ≠ '.'

mutual

/-- Recursive-descent JSON parser (fuel-indexed: the fuel bounds the nesting
and element count, and the caller supplies `length + 1`, which always
suffices — see `needVal_le_length_jsonDumps`). -/
def parseVal : Nat → List Char → Option (PyVal × List Char)
  | 0, _ => Option.none
  | fuel + 1, input =>
    match skipWs input with
    | [] => Option.none
    | c :: rest =>
      if c = 'n' then
        match rest with
        | 'u' :: 'l' :: 'l' :: r => some (.none, r)
        | _ => Option.none
      else if c = 't' then
        match rest with
        | 'r' :: 'u' :: 'e' :: r => some (.bool true, r)
        | _ => Option.none
      else if c = 'f' then
        match rest with
        | 'a' :: 'l' :: 's' :: 'e' :: r => some (.bool false, r)
        | _ => Option.none
      else if c = '"' then
        match parseStringBody rest with
        | some (s, r) => some (.str (String.mk s), r)
        | Option.none => Option.none
      else if c = '[' then
        match skipWs rest with
        | [] => Option.none
        | d :: r2 =>
          if d = ']' then some (.list [], r2)
          else
            match parseVal fuel (d :: r2) with
            | some (v, r3) => parseListRest fuel [v] r3
            | Option.none => Option.none
      else if c = '{' then
        match skipWs rest with
        | [] => Option.none
        | d :: r2 =>
          if d = '}' then some (.dict [], r2)
          else
            match parseDictEntry fuel (d :: r2) with
            | some (ev, r3) => parseDictRest fuel [ev] r3
            | Option.none => Option.none
      else parseNumber (c :: rest)

def parseListRest : Nat → List PyVal → List Char → Option (PyVal × List Char)
  | fuel, acc, input =>
    match skipWs input with
    | [] => Option.none
    | c :: rest =>
      if c = ']' then some (.list acc, rest)
      else if c = ',' then
        match fuel with
        | 0 => Option.none
        | fuel' + 1 =>
          match parseVal fuel' rest with
          | some (v, r2) => parseListRest fuel' (acc ++ [v]) r2
          | Option.none => Option.none
      else Option.none

def parseDictEntry : Nat → List Char → Option ((String × PyVal) × List Char)
  | fuel, input =>
    match input with
    | [] => Option.none
    | c :: rest =>
      if c = '"' then
        match parseStringBody rest with
        | some (k, r2) =>
          match skipWs r2 with
          | [] => Option.none
          | c2 :: r3 =>
            if c2 = ':' then
              match parseVal fuel r3 with
              | some (v, r4) => some ((String.mk k, v), r4)
              | Option.none => Option.none
            else Option.none
        | Option.none => Option.none
      else Option.none

def parseDictRest : Nat → List (String × PyVal) → List Char →
    Option (PyVal × List Char)
  | fuel, acc, input =>
    match skipWs input with
    | [] => Option.none
    | c :: rest =>
      if c = '}' then some (.dict acc, rest)
      else if c = ',' then
        match fuel with
        | 0 => Option.none
        | fuel' + 1 =>
          match parseDictEntry fuel' (skipWs rest) with
          | some (ev, r2) => parseDictRest fuel' (acc ++ [ev]) r2
          | Option.none => Option.none
      else Option.none

end

/-- `json.loads`: parse, requiring only trailing whitespace to remain. -/
def jsonLoads (s : String) : Option PyVal :=
  match parseVal (s.data.length + 1) s.data with
  | some (v, rest) => if skipWs rest = [] then some v else Option.none
  | Option.none => Option.none

/-! ### `RedisCache._serialize` / `_deserialize` (cache.py lines 291-341) -/

/-- `RedisCache._serialize`.  The branches mirror the source's `isinstance`
chain on the serializable universe: primitives go through plain
`json.dumps`, dicts/lists through `json.dumps(·, cls=CustomJSONEncoder)`,
and anything else (here: `Decimal`) through the final
`json.dumps(·, cls=CustomJSONEncoder)` branch.  On this universe the plain
and encoder-equipped `dumps` coincide (the encoder is consulted only for
`Decimal`), so each branch is the one printer. -/
def RedisCache._serialize (value : PyVal) : String :=
  match value with
  | .str _ | .int _ | .float _ _ | .bool _ | .none => String.mk (jsonDumps value)
  | .list _ | .dict _ => String.mk (jsonDumps value)
  | .dec _ _ => String.mk (jsonDumps value)

/-- `RedisCache._deserialize`: `json.loads`, returning the raw string when
parsing raises. -/
def RedisCache._deserialize (value : String) : PyVal :=
  match jsonLoads value with
  | some v => v
  | Option.none => .str value

mutual

/-- The value `json.loads` recovers from a serialized `PyVal`: `Decimal`s
come back as floats, and a float with no fractional digits gains the `".0"`
digit the printer emits.  Lists and dicts map recursively. -/
def reloadImage : PyVal → PyVal
  | .none => .none
  | .bool b => .bool b
  | .int n => .int n
  | .float m e => if e = 0 then .float (m * 10) 1 else .float m e
  | .dec m e => if e = 0 then .float (m * 10) 1 else .float m e
  | .str s => .str s
  | .list xs => .list (reloadImageList xs)
  | .dict kvs => .dict (reloadImageDict kvs)

/-- `reloadImage` mapped over list elements. -/
def reloadImageList : List PyVal → List PyVal
  | [] => []
  | x :: xs => reloadImage x :: reloadImageList xs

/-- `reloadImage` mapped over dict values. -/
def reloadImageDict : List (String × PyVal) → List (String × PyVal)
  | [] => []
  | (k, v) :: kvs => (k, reloadImage v) :: reloadImageDict kvs

end

mutual

/-- Observable equivalence of values: structural equality except that
numbers (floats among themselves, and a float against the `Decimal` it
encodes) are compared by numeric value `m / 10^e`. -/
inductive ObsEquiv : PyVal → PyVal → Prop where
  | none : ObsEquiv .none .none
  | bool (b : Bool) : ObsEquiv (.bool b) (.bool b)
  | int (n : Int) : ObsEquiv (.int n) (.int n)
  | str (s : String) : ObsEquiv (.str s) (.str s)
  | float (m1 : Int) (e1 : Nat) (m2 : Int) (e2 : Nat) :
      m1 * 10 ^ e2 = m2 * 10 ^ e1 → ObsEquiv (.float m1 e1) (.float m2 e2)
  | floatDec (m1 : Int) (e1 : Nat) (m2 : Int) (e2 : Nat) :
      m1 * 10 ^ e2 = m2 * 10 ^ e1 → ObsEquiv (.float m1 e1) (.dec m2 e2)
  | list {xs ys : List PyVal} :
      ObsEquivList xs ys → ObsEquiv (.list xs) (.list ys)
  | dict {kvs lvs : List (String × PyVal)} :
      ObsEquivDict kvs lvs → ObsEquiv (.dict kvs) (.dict lvs)

/-- `ObsEquiv` element-wise on lists. -/
inductive ObsEquivList : List PyVal → List PyVal → Prop where
  | nil : ObsEquivList [] []
  | cons {x y : PyVal} {xs ys : List PyVal} :
      ObsEquiv x y → ObsEquivList xs ys → ObsEquivList (x :: xs) (y :: ys)

/-- `ObsEquiv` value-wise on dict entries (keys equal). -/
inductive ObsEquivDict : List (String × PyVal) → List (String × PyVal) → Prop where
  | nil : ObsEquivDict [] []
  | cons {k : String} {v w : PyVal} {kvs lvs : List (String × PyVal)} :
      ObsEquiv v w → ObsEquivDict kvs lvs →
      ObsEquivDict ((k, v) :: kvs) ((k, w) :: lvs)

end

/-! ## CustomJSONEncoder.default (cache.py lines 47-76) -/

/-- An arbitrary Python object reaching `CustomJSONEncoder.default` (i.e.
one the base JSON encoder could not serialize), as classified by the
`isinstance` chain: a `Decimal`, a SQLAlchemy `Base` model (its
`jsonable_encoder` field dictionary), an `Enum` (its `value`), a pydantic
`BaseModel` (its dumped field dictionary), or any other object (carrying its
`str(obj)` representation). -/
inductive PyObj where
  | decimal (m : Int) (e : Nat)
  | sqlModel (fields : List (String × PyVal))
  | enumObj (value : PyVal)
  | pydanticModel (fields : List (String × PyVal))
  | unhandled (reprStr : String)
deriving Repr

/-- `str(obj)`.  Only the `unhandled` case is ever consumed (the fallback is
unreachable for the specifically handled types); the handled types get the
empty rendering. -/
def pyStr : PyObj → String
  | .unhandled r => r
  | _ => ""

/-- The `try` block of `CustomJSONEncoder.default`: the `isinstance` chain,
with `super().default(obj)` raising `TypeError` for an unhandled type. -/
def CustomJSONEncoder.defaultTry : PyObj → Except String PyVal
  | .decimal m e => .ok (.float m e)
  | .sqlModel fields => .ok (.dict fields)
  | .enumObj v => .ok v
  | .pydanticModel fields => .ok (.dict fields)
  | .unhandled _ => .error "TypeError: Object of this type is not JSON serializable"

/-- `CustomJSONEncoder.default`: the `try` block with its
`except Exception` handler returning `str(obj)`.  A raising outcome would be
`.error`; the handler converts every error into a normal return. -/
def CustomJSONEncoder.default (obj : PyObj) : Except String PyVal :=
  match CustomJSONEncoder.defaultTry obj with
  | .ok v => .ok v
  | .error _ => .ok (.str (pyStr obj))

/-! ## Cache store, cache-aside decorator, invalidation
(`RedisCache`, `cache`, `invalidate_cache` of cache.py) -/

/-- `REDIS_CACHE_EXPIRE_SECONDS` (config.py line 82: `60 * 5`). -/
def settingsRedisCacheExpireSeconds : ℚ := 300

/-- State of the Redis server as seen by the cache: entries
`(key, value, expiry deadline)` — `SET key v EX ttl` at time `now` installs
deadline `now + ttl`, and the key is live while `now < deadline` —
plus the `healthy` flag modelling "any store call raises". -/
structure CacheStore where
  entries : List (String × String × ℚ)
  healthy : Bool
deriving Repr, DecidableEq

/-- The live value stored under `key` at time `now`, if any. -/
def lookupLive (st : CacheStore) (now : ℚ) (key : String) : Option String :=
  match st.entries.find? (fun e => e.1 == key) with
  | some e => if now < e.2.2 then some e.2.1 else Option.none
  | Option.none => Option.none

/-- `RedisCache.get` (cache.py lines 157-174): the stored value
deserialized, `None` when the key is absent (or expired), `None` when any
store call raises (the `except` branch). -/
def RedisCache.get (st : CacheStore) (now : ℚ) (key : String) : PyVal :=
  if !st.healthy then .none
  else
    match lookupLive st now key with
    | Option.none => .none
    | some v => RedisCache._deserialize v

/-- `RedisCache.set` (cache.py lines 176-197): serialize and `SET ... EX`
(default TTL from settings when `expire is None`); `False` without touching
the store when any store call raises. -/
def RedisCache.set (st : CacheStore) (now : ℚ) (key : String) (value : PyVal)
    (expire : Option ℚ) : CacheStore × Bool :=
  if !st.healthy then (st, false)
  else
    let ex := expire.getD settingsRedisCacheExpireSeconds
    ({ st with entries := (key, RedisCache._serialize value, now + ex) ::
        st.entries.filter (fun e => !(e.1 == key)) }, true)

/-- Redis `KEYS`-style glob matching (`*`, `?`, literal characters; the
store is an external collaborator and the spec asks for glob patterns such
as `products_*`). -/
def globMatch : List Char → List Char → Bool
  | [], [] => true
  | [], _ :: _ => false
  | p :: ps, [] => p = '*' && globMatch ps []
  | p :: ps, c :: cs =>
    if p = '*' then globMatch ps (c :: cs) || globMatch (p :: ps) cs
    else if p = '?' then globMatch ps cs
    else p = c && globMatch ps cs
termination_by p s => (p.length, s.length)

/-- The live keys matching a pattern at time `now` (Redis `KEYS` does not
report expired keys). -/
def matchingKeys (st : CacheStore) (now : ℚ) (pattern : String) : List String :=
  (st.entries.filter
    (fun e => decide (now < e.2.2) && globMatch pattern.data e.1.data)).map
    (fun e => e.1)

/-- `RedisCache.delete_pattern` (cache.py lines 214-231): `KEYS pattern`,
`0` when none match, otherwise `DEL` them all and return the count; `0`
without touching the store when any store call raises. -/
def RedisCache.delete_pattern (st : CacheStore) (now : ℚ) (pattern : String) :
    CacheStore × Nat :=
  if !st.healthy then (st, 0)
  else
    let ks := matchingKeys st now pattern
    if ks.isEmpty then (st, 0)
    else
      ({ st with entries := st.entries.filter (fun e => !(ks.contains e.1)) },
       ks.length)

/-- Pairs sorted as Python's `sorted(d.items())` (dict keys are distinct, so
lexicographic tuple order is key order). -/
def sortPairsStr (ps : List (String × String)) : List (String × String) :=
  ps.mergeSort (fun a b => a.1 ≤ b.1)

/-- The cache key built by the `cache` decorator's wrapper (cache.py lines
436-454): the function-name prefix, then sorted `"k:v"` path-parameter
components, then sorted `"k:v"` query-parameter components, passed
positionally to `generate_cache_key` (plain strings, so each takes the
`str(arg)` branch; no kwargs). -/
def buildCacheKey (funcPrefix : String)
    (pathParams queryParams : List (String × String))
    (includePathParams includeQueryParams : Bool) : String :=
  let comps :=
    (if includePathParams then
      (sortPairsStr pathParams).map (fun p => p.1 ++ ":" ++ p.2) else []) ++
    (if includeQueryParams then
      (sortPairsStr queryParams).map (fun p => p.1 ++ ":" ++ p.2) else [])
  generate_cache_key funcPrefix (comps.map CacheArg.other) []

/-- One call through the wrapper installed by the `cache` decorator
(cache.py lines 417-469).  `computeResult` is the value the wrapped `func`
returns if invoked on this call; the third component records whether `func`
was invoked:

* Redis not initialized → call `func` directly, return its result unmodified;
* cache hit (`cached_result is not None`) → return it without invoking `func`;
* miss → invoke `func`, store the result (failures of the store write are
  swallowed by `set`), return the result. -/
def cacheWrapperCall (initialized : Bool) (st : CacheStore) (now : ℚ)
    (funcPrefix : String) (pathParams queryParams : List (String × String))
    (includePathParams includeQueryParams : Bool)
    (computeResult : PyVal) (expire : Option ℚ) : CacheStore × PyVal × Bool :=
  if !initialized then (st, computeResult, true)
  else
    let cache_key := buildCacheKey funcPrefix pathParams queryParams
      includePathParams includeQueryParams
    let cached_result := RedisCache.get st now cache_key
    if !(pyIsNone cached_result) then (st, cached_result, false)
    else
      let result := computeResult
      ((RedisCache.set st now cache_key result expire).1, result, true)

/-- One call through the wrapper installed by the `invalidate_cache`
decorator (cache.py lines 490-512).  `funcResult` is the wrapped mutating
operation's outcome (`.error` = it raised).  The wrapper runs the operation
first; only on success, and only when Redis is initialized, does it delete
the keys matching the pattern, and it returns the operation's result
unchanged together with the deleted count. -/
def invalidate_cache_call (initialized : Bool) (st : CacheStore) (now : ℚ)
    (pattern : String) (funcResult : Except String PyVal) :
    CacheStore × Except String (PyVal × Nat) :=
  match funcResult with
  | .error e => (st, .error e)
  | .ok result =>
    if initialized then
      let r := RedisCache.delete_pattern st now pattern
      (r.1, .ok (result, r.2))
    else (st, .ok (result, 0))

mutual

/-- Fuel sufficient for `parseVal` to parse a printed value (each list/dict
element costs one fuel step in the parsing loops). -/
def needVal : PyVal → Nat
  | .none => 1
  | .bool _ => 1
  | .int _ => 1
  | .float _ _ => 1
  | .dec _ _ => 1
  | .str _ => 1
  | .list xs => 1 + needItems xs
  | .dict kvs => 1 + needEntries kvs

def needItems : List PyVal → Nat
  | [] => 0
  | x :: xs => 1 + needVal x + needItems xs

def needEntries : List (String × PyVal) → Nat
  | [] => 0
  | e :: es => 1 + needVal e.2 + needEntries es

end

/-! ## Theorems: rate limiter -/

theorem fmod_nonneg (a b : ℚ) (hb : 0 < b) : 0 ≤ fmod a b := by
  unfold fmod
  have h1 : (⌊a / b⌋ : ℚ) ≤ a / b := Int.floor_le _
  have h2 : b * (⌊a / b⌋ : ℚ) ≤ b * (a / b) :=
    mul_le_mul_of_nonneg_left h1 hb.le
  have h3 : b * (a / b) = a := by field_simp
  linarith

theorem fmod_lt (a b : ℚ) (hb : 0 < b) : fmod a b < b := by
  unfold fmod
  have h1 : a / b < (⌊a / b⌋ : ℚ) + 1 := Int.lt_floor_add_one _
  have h2 : b * (a / b) < b * ((⌊a / b⌋ : ℚ) + 1) :=
    mul_lt_mul_of_pos_left h1 hb
  have h3 : b * (a / b) = a := by field_simp
  nlinarith

theorem pyTrunc_eq_floor (q : ℚ) (h : 0 ≤ q) : pyTrunc q = ⌊q⌋ := by
  unfold pyTrunc
  exact if_pos h

/-- One admitted step of `is_rate_limited` against a healthy store: when no
existing entry of the client's set has yet left the window, nothing is pruned,
the new timestamp is recorded, and the returned triple is determined by the
new cardinality. -/
theorem is_rate_limited_step (st : RLStore) (now : ℚ) (key : String)
    (cfg : RateLimitConfig) (hh : st.healthy = true)
    (hper : 0 < cfg.period_seconds)
    (hkeep : ∀ s ∈ lookupSet st (cfg.pfx ++ ":" ++ key),
      s < now ∧ now - s < (cfg.period_seconds : ℚ)) :
    (is_rate_limited true st now key cfg).1.healthy = true ∧
    lookupSet (is_rate_limited true st now key cfg).1 (cfg.pfx ++ ":" ++ key) =
      now :: lookupSet st (cfg.pfx ++ ":" ++ key) ∧
    (is_rate_limited true st now key cfg).2 =
      (decide (((((lookupSet st (cfg.pfx ++ ":" ++ key)).length + 1 : Nat)) : Int) > cfg.requests),
       max 0 (cfg.requests - (((lookupSet st (cfg.pfx ++ ":" ++ key)).length + 1 : Nat) : Int)),
       pyTrunc ((cfg.period_seconds : ℚ) - fmod now (cfg.period_seconds : ℚ))) := by
  have hper' : (0 : ℚ) < (cfg.period_seconds : ℚ) := by exact_mod_cast hper
  have hnotin : now ∉ lookupSet st (cfg.pfx ++ ":" ++ key) := by
    intro hmem
    exact absurd (hkeep now hmem).1 (lt_irrefl now)
  have hadd : zadd (lookupSet st (cfg.pfx ++ ":" ++ key)) now =
      now :: lookupSet st (cfg.pfx ++ ":" ++ key) := if_neg hnotin
  have hfilter : zremrangebyscore
      (now :: lookupSet st (cfg.pfx ++ ":" ++ key)) 0
      (now - (cfg.period_seconds : ℚ)) =
      now :: lookupSet st (cfg.pfx ++ ":" ++ key) := by
    apply List.filter_eq_self.mpr
    intro s hs
    simp only [Bool.not_eq_true', Bool.and_eq_false_iff, decide_eq_false_iff_not,
      not_le]
    rcases List.mem_cons.mp hs with rfl | hsL
    · right; linarith
    · right; linarith [(hkeep s hsL).2]
  constructor
  · simp [is_rate_limited, hh]
  constructor
  · simp only [is_rate_limited, hh, Bool.not_true, Bool.false_eq_true,
      if_false]
    rw [hadd, hfilter]
    simp only [lookupSet, updateAssoc, List.lookup, beq_self_eq_true,
      cond_true, Option.getD_some]
  · simp only [is_rate_limited, hh, Bool.not_true, Bool.false_eq_true,
      if_false]
    rw [hadd, hfilter]
    simp only [zcard, List.length_cons]

/-- Sequential requests by a single identity within one window against a
healthy, initialized store: the `k`-th (0-based) triple is fully determined,
with window count `L₀ + k + 1` where `L₀` is the client's initial entry
count. -/
theorem runRequests_spec (key : String) (cfg : RateLimitConfig)
    (hper : 0 < cfg.period_seconds) :
    ∀ (times : List ℚ) (st : RLStore),
      st.healthy = true →
      (∀ t ∈ times, ∀ s ∈ lookupSet st (cfg.pfx ++ ":" ++ key),
        s < t ∧ t - s < (cfg.period_seconds : ℚ)) →
      times.Pairwise (fun a b => a < b ∧ b - a < (cfg.period_seconds : ℚ)) →
      ∀ k t, times[k]? = some t →
        (runRequests true key cfg st times).2[k]? =
          some (decide (((((lookupSet st (cfg.pfx ++ ":" ++ key)).length + k + 1 : Nat)) : Int) > cfg.requests),
                max 0 (cfg.requests - (((lookupSet st (cfg.pfx ++ ":" ++ key)).length + k + 1 : Nat) : Int)),
                pyTrunc ((cfg.period_seconds : ℚ) - fmod t (cfg.period_seconds : ℚ))) := by
  intro times
  induction times with
  | nil =>
    intro st hh hcomp hpw k t ht
    simp at ht
  | cons t0 ts ih =>
    intro st hh hcomp hpw k t ht
    obtain ⟨hrel, hpw'⟩ := List.pairwise_cons.mp hpw
    obtain ⟨hs1, hs2, hs3⟩ := is_rate_limited_step st t0 key cfg hh hper
      (fun s hs => hcomp t0 (List.mem_cons_self t0 ts) s hs)
    match k with
    | 0 =>
      rw [List.getElem?_cons_zero] at ht
      injection ht with ht
      subst ht
      show ((is_rate_limited true st t0 key cfg).2 ::
        (runRequests true key cfg (is_rate_limited true st t0 key cfg).1 ts).2)[0]? = _
      rw [List.getElem?_cons_zero, hs3]
    | Nat.succ k' =>
      have hcomp' : ∀ t' ∈ ts,
          ∀ s ∈ lookupSet (is_rate_limited true st t0 key cfg).1
            (cfg.pfx ++ ":" ++ key),
          s < t' ∧ t' - s < (cfg.period_seconds : ℚ) := by
        intro t' ht' s hs
        rw [hs2] at hs
        rcases List.mem_cons.mp hs with rfl | hsL
        · exact hrel t' ht'
        · exact hcomp t' (List.mem_cons_of_mem t0 ht') s hsL
      rw [List.getElem?_cons_succ] at ht
      have ih' := ih (is_rate_limited true st t0 key cfg).1 hs1 hcomp' hpw' k' t ht
      show ((is_rate_limited true st t0 key cfg).2 ::
        (runRequests true key cfg (is_rate_limited true st t0 key cfg).1 ts).2)[k' + 1]? = _
      rw [List.getElem?_cons_succ, ih', hs2]
      have harith : (lookupSet st (cfg.pfx ++ ":" ++ key)).length + 1 + k' + 1 =
          (lookupSet st (cfg.pfx ++ ":" ++ key)).length + (k' + 1) + 1 := by omega
      rw [List.length_cons, harith]

/-- **C1** (sliding-window admission): for every client identity issuing
sequential requests within one window of `period_seconds` against an
initialized limiter with an error-free store and no prior entries, the `k`-th
(0-based) request's decision is `limited = (k + 1 > requests)` — so if
`N ≤ requests` none of the first `N` are rejected, and every request beyond
the `requests`-th within the window is rejected — and the triple also carries
`remaining = max 0 (requests - (k+1))` and the wall-clock reset time.  In
particular with `requests = 3`, `period_seconds = 60`, four sequential
requests within one second yield decisions `[admit, admit, admit, reject]`
and the fourth carries `remaining = 0` (see the witness). -/
theorem sliding_window_admission (key : String) (cfg : RateLimitConfig)
    (st : RLStore) (times : List ℚ)
    (hper : 0 < cfg.period_seconds)
    (hh : st.healthy = true)
    (hfresh : lookupSet st (cfg.pfx ++ ":" ++ key) = [])
    (hwin : times.Pairwise (fun a b => a < b ∧ b - a < (cfg.period_seconds : ℚ))) :
    ∀ k t, times[k]? = some t →
      (runRequests true key cfg st times).2[k]? =
        some (decide ((((k + 1 : Nat)) : Int) > cfg.requests),
              max 0 (cfg.requests - ((k + 1 : Nat) : Int)),
              pyTrunc ((cfg.period_seconds : ℚ) - fmod t (cfg.period_seconds : ℚ))) := by
  intro k t ht
  have hcomp : ∀ t' ∈ times, ∀ s ∈ lookupSet st (cfg.pfx ++ ":" ++ key),
      s < t' ∧ t' - s < (cfg.period_seconds : ℚ) := by
    intro t' _ s hs
    rw [hfresh] at hs
    simp at hs
  have h := runRequests_spec key cfg hper times st hh hcomp hwin k t ht
  rw [hfresh] at h
  simpa using h

/-- Witness for C1: the spec's concrete scenario.  `requests = 3`,
`period_seconds = 60`, identity `"X"`, four sequential requests within one
second: the fourth decision is `reject` with `remaining = 0` (and the first
three triples, computed by the same theorem, are admissions — checked here by
direct evaluation of `runRequests`). -/
theorem sliding_window_admission_witness :
    (RLStore.mk [] [] true).healthy = true ∧
    ((runRequests true "X" ⟨3, 60, "ratelimit"⟩ ⟨[], [], true⟩
        [100, 100.3, 100.6, 100.9]).2[0]? = some (false, 2, 20)) ∧
    ((runRequests true "X" ⟨3, 60, "ratelimit"⟩ ⟨[], [], true⟩
        [100, 100.3, 100.6, 100.9]).2[1]? = some (false, 1, 19)) ∧
    ((runRequests true "X" ⟨3, 60, "ratelimit"⟩ ⟨[], [], true⟩
        [100, 100.3, 100.6, 100.9]).2[2]? = some (false, 0, 19)) ∧
    ((runRequests true "X" ⟨3, 60, "ratelimit"⟩ ⟨[], [], true⟩
        [100, 100.3, 100.6, 100.9]).2[3]? = some (true, 0, 19)) := by
  have hwin : List.Pairwise
      (fun a b => a < b ∧ b - a <
        ((⟨3, 60, "ratelimit"⟩ : RateLimitConfig).period_seconds : ℚ))
      [100, 100.3, 100.6, 100.9] := by
    norm_num [List.pairwise_cons]
  have h := sliding_window_admission "X" ⟨3, 60, "ratelimit"⟩ ⟨[], [], true⟩
    [100, 100.3, 100.6, 100.9] (by decide) rfl rfl hwin
  refine ⟨rfl, ?_, ?_, ?_, ?_⟩
  · rw [h 0 100 rfl]
    norm_num [pyTrunc, fmod]
  · rw [h 1 100.3 rfl]
    norm_num [pyTrunc, fmod]
  · rw [h 2 100.6 rfl]
    norm_num [pyTrunc, fmod]
  · rw [h 3 100.9 rfl]
    norm_num [pyTrunc, fmod]

/-- **C3** (returned triple): every successful `is_rate_limited` call (store
healthy, limiter initialized, positive window) returns exactly
`limited = (count > requests)`, `remaining = max 0 (requests - count)` and
`resetSeconds = ⌊period - (now mod period)⌋`, where `count` is the window
count after the pipeline's add-and-prune steps and `now` is the wall-clock
time sampled at the start of the call. -/
theorem is_rate_limited_triple (st : RLStore) (now : ℚ) (key : String)
    (cfg : RateLimitConfig) (hh : st.healthy = true)
    (hper : 0 < cfg.period_seconds) :
    (is_rate_limited true st now key cfg).2 =
      (decide ((windowCount st now key cfg : Int) > cfg.requests),
       max 0 (cfg.requests - (windowCount st now key cfg : Int)),
       ⌊(cfg.period_seconds : ℚ) - fmod now (cfg.period_seconds : ℚ)⌋) := by
  have hper' : (0 : ℚ) < (cfg.period_seconds : ℚ) := by exact_mod_cast hper
  have hpos : 0 ≤ (cfg.period_seconds : ℚ) - fmod now (cfg.period_seconds : ℚ) := by
    linarith [fmod_lt now (cfg.period_seconds : ℚ) hper']
  simp only [is_rate_limited, hh, Bool.not_true, Bool.false_eq_true,
    if_false, if_true, windowCount]
  rw [pyTrunc_eq_floor _ hpos]

/-- Witness for C3 at a concrete input: two surviving prior entries, a third
request at `now = 100` against window 60 and limit 3. -/
theorem is_rate_limited_triple_witness :
    (RLStore.mk [("ratelimit:X", [95, 97])] [] true).healthy = true ∧
    (is_rate_limited true ⟨[("ratelimit:X", [95, 97])], [], true⟩ 100 "X"
        ⟨3, 60, "ratelimit"⟩).2 =
      (decide ((windowCount ⟨[("ratelimit:X", [95, 97])], [], true⟩ 100 "X"
          ⟨3, 60, "ratelimit"⟩ : Int) > (3 : Int)),
       max 0 ((3 : Int) - (windowCount ⟨[("ratelimit:X", [95, 97])], [], true⟩ 100 "X"
          ⟨3, 60, "ratelimit"⟩ : Int)),
       ⌊(60 : ℚ) - fmod 100 60⌋) :=
  ⟨rfl, is_rate_limited_triple ⟨[("ratelimit:X", [95, 97])], [], true⟩ 100 "X"
    ⟨3, 60, "ratelimit"⟩ rfl (by decide)⟩

/-- **C8** (window expiry): if every entry of a client's set is scored at or
below `now - period_seconds` (the client has been idle longer than the
window), the pruning step removes all of them, so the next request is
admitted with `remaining = requests - 1` and the surviving set is exactly the
new timestamp. -/
theorem window_expiry (st : RLStore) (now : ℚ) (key : String)
    (cfg : RateLimitConfig)
    (hh : st.healthy = true) (hper : 0 < cfg.period_seconds)
    (hreq : 1 ≤ cfg.requests)
    (hidle : ∀ s ∈ lookupSet st (cfg.pfx ++ ":" ++ key),
      0 ≤ s ∧ s ≤ now - (cfg.period_seconds : ℚ)) :
    lookupSet (is_rate_limited true st now key cfg).1 (cfg.pfx ++ ":" ++ key) =
      [now] ∧
    (is_rate_limited true st now key cfg).2.1 = false ∧
    (is_rate_limited true st now key cfg).2.2.1 = cfg.requests - 1 := by
  have hper' : (0 : ℚ) < (cfg.period_seconds : ℚ) := by exact_mod_cast hper
  have hnotin : now ∉ lookupSet st (cfg.pfx ++ ":" ++ key) := by
    intro hmem
    have := (hidle now hmem).2
    linarith
  have hadd : zadd (lookupSet st (cfg.pfx ++ ":" ++ key)) now =
      now :: lookupSet st (cfg.pfx ++ ":" ++ key) := if_neg hnotin
  have hfilter : zremrangebyscore
      (now :: lookupSet st (cfg.pfx ++ ":" ++ key)) 0
      (now - (cfg.period_seconds : ℚ)) = [now] := by
    unfold zremrangebyscore
    rw [List.filter_cons]
    have hnowkeep : (!(decide ((0 : ℚ) ≤ now) && decide (now ≤ now - (cfg.period_seconds : ℚ)))) = true := by
      simp only [Bool.not_eq_true', Bool.and_eq_false_iff, decide_eq_false_iff_not, not_le]
      right; linarith
    rw [if_pos hnowkeep]
    have hrest : (lookupSet st (cfg.pfx ++ ":" ++ key)).filter
        (fun s => !(decide ((0 : ℚ) ≤ s) && decide (s ≤ now - (cfg.period_seconds : ℚ)))) = [] := by
      apply List.filter_eq_nil_iff.mpr
      intro s hs
      obtain ⟨h0, h1⟩ := hidle s hs
      simp [h0, h1]
    rw [hrest]
  constructor
  · simp only [is_rate_limited, hh, Bool.not_true, Bool.false_eq_true,
      if_false]
    rw [hadd, hfilter]
    simp only [lookupSet, updateAssoc, List.lookup, beq_self_eq_true,
      cond_true, Option.getD_some]
  constructor
  · simp only [is_rate_limited, hh, Bool.not_true, Bool.false_eq_true,
      if_false]
    rw [hadd, hfilter]
    simp only [zcard, List.length_singleton, decide_eq_false_iff_not, not_lt]
    exact_mod_cast hreq
  · simp only [is_rate_limited, hh, Bool.not_true, Bool.false_eq_true,
      if_false]
    rw [hadd, hfilter]
    simp only [zcard, List.length_singleton]
    omega

/-- Witness for C8: three stale entries, limit 3, window 60, next request at
`now = 200`. -/
theorem window_expiry_witness :
    (RLStore.mk [("ratelimit:X", [10, 20, 30])] [] true).healthy = true ∧
    (lookupSet (is_rate_limited true ⟨[("ratelimit:X", [10, 20, 30])], [], true⟩
        200 "X" ⟨3, 60, "ratelimit"⟩).1 ("ratelimit" ++ ":" ++ "X") = [200] ∧
     (is_rate_limited true ⟨[("ratelimit:X", [10, 20, 30])], [], true⟩
        200 "X" ⟨3, 60, "ratelimit"⟩).2.1 = false ∧
     (is_rate_limited true ⟨[("ratelimit:X", [10, 20, 30])], [], true⟩
        200 "X" ⟨3, 60, "ratelimit"⟩).2.2.1 = (3 : Int) - 1) := by
  have hidle : ∀ s ∈ lookupSet ⟨[("ratelimit:X", [10, 20, 30])], [], true⟩
      ((⟨3, 60, "ratelimit"⟩ : RateLimitConfig).pfx ++ ":" ++ "X"),
      0 ≤ s ∧ s ≤ (200 : ℚ) - ((⟨3, 60, "ratelimit"⟩ : RateLimitConfig).period_seconds : ℚ) := by
    have hls : lookupSet ⟨[("ratelimit:X", [10, 20, 30])], [], true⟩
        ((⟨3, 60, "ratelimit"⟩ : RateLimitConfig).pfx ++ ":" ++ "X") =
        [10, 20, 30] := rfl
    rw [hls]
    intro s hs
    rcases List.mem_cons.mp hs with rfl | hs
    · norm_num
    rcases List.mem_cons.mp hs with rfl | hs
    · norm_num
    rcases List.mem_cons.mp hs with rfl | hs
    · norm_num
    · simp at hs
  exact ⟨rfl, window_expiry ⟨[("ratelimit:X", [10, 20, 30])], [], true⟩ 200 "X"
    ⟨3, 60, "ratelimit"⟩ rfl (by decide) (by decide) hidle⟩

/-! ## Theorems: cache key generation -/

/-- **C6** (cache key determinism and permutation stability): with the same
prefix, the same positional arguments in the same order, and the same
keyword-argument set — regardless of the order in which the keyword
arguments are supplied (Python dict keys are distinct) —
`generate_cache_key` produces the same key, and the key has the shape
`{prefix}:{md5Hex(canonicalizedComponents)}` where the canonicalized
components are the prefix, the positional parts in order, and the keyword
parts sorted by key, joined with `":"`. -/
theorem cache_key_stability (pfx : String) (args : List CacheArg)
    (kw1 kw2 : List (String × CacheArg))
    (hperm : kw1.Perm kw2)
    (hnodup : (kw1.map Prod.fst).Nodup) :
    generate_cache_key pfx args kw1 = generate_cache_key pfx args kw2 ∧
    generate_cache_key pfx args kw1 =
      pfx ++ ":" ++ md5Hex (strBytes (String.intercalate ":"
        (pfx :: (args.map argStr ++
          (sortKwargs kw1).map (fun p => p.1 ++ ":" ++ argStr p.2))))) := by
  have htrans : ∀ (a b c : String × CacheArg),
      (fun a b : String × CacheArg => (decide (a.1 ≤ b.1))) a b →
      (fun a b : String × CacheArg => (decide (a.1 ≤ b.1))) b c →
      (fun a b : String × CacheArg => (decide (a.1 ≤ b.1))) a c := by
    intro a b c hab hbc
    simp only [decide_eq_true_eq] at *
    exact le_trans hab hbc
  have htotal : ∀ (a b : String × CacheArg),
      ((fun a b : String × CacheArg => (decide (a.1 ≤ b.1))) a b ||
       (fun a b : String × CacheArg => (decide (a.1 ≤ b.1))) b a) := by
    intro a b
    simp only [Bool.or_eq_true, decide_eq_true_eq]
    exact le_total a.1 b.1
  have hperm1 : (sortKwargs kw1).Perm kw1 := kw1.mergeSort_perm _
  have hperm2 : (sortKwargs kw2).Perm kw2 := kw2.mergeSort_perm _
  have hpermS : (sortKwargs kw1).Perm (sortKwargs kw2) :=
    (hperm1.trans hperm).trans hperm2.symm
  have hne1 : kw1.Pairwise (fun a b => a.1 ≠ b.1) :=
    List.pairwise_map.mp hnodup
  have hneS1 : (sortKwargs kw1).Pairwise (fun a b => a.1 ≠ b.1) :=
    (hperm1.pairwise_iff (fun h => h.symm)).mpr hne1
  have hne2 : kw2.Pairwise (fun a b => a.1 ≠ b.1) :=
    (hperm.pairwise_iff (fun h => h.symm)).mp hne1
  have hneS2 : (sortKwargs kw2).Pairwise (fun a b => a.1 ≠ b.1) :=
    (hperm2.pairwise_iff (fun h => h.symm)).mpr hne2
  have hle1 : (sortKwargs kw1).Pairwise (fun a b => a.1 ≤ b.1) :=
    (List.sorted_mergeSort htrans htotal kw1).imp
      (fun h => by simpa using h)
  have hle2 : (sortKwargs kw2).Pairwise (fun a b => a.1 ≤ b.1) :=
    (List.sorted_mergeSort htrans htotal kw2).imp
      (fun h => by simpa using h)
  have hlt1 : (sortKwargs kw1).Pairwise (fun a b => a.1 < b.1) :=
    (hle1.and hneS1).imp (fun h => lt_of_le_of_ne h.1 h.2)
  have hlt2 : (sortKwargs kw2).Pairwise (fun a b => a.1 < b.1) :=
    (hle2.and hneS2).imp (fun h => lt_of_le_of_ne h.1 h.2)
  haveI : IsAntisymm (String × CacheArg) (fun a b => a.1 < b.1) :=
    ⟨fun a b h1 h2 => absurd h1 (asymm h2)⟩
  have hsort : sortKwargs kw1 = sortKwargs kw2 :=
    List.eq_of_perm_of_sorted hpermS hlt1 hlt2
  constructor
  · unfold generate_cache_key
    rw [hsort]
  · rfl

/-- Witness for C6: two keyword arguments supplied in both orders yield the
same key, of the prescribed shape. -/
theorem cache_key_stability_witness :
    ([("b", CacheArg.other "1"), ("a", CacheArg.other "2")].Perm
      [("a", CacheArg.other "2"), ("b", CacheArg.other "1")]) ∧
    (generate_cache_key "test" [CacheArg.other "7"]
        [("b", CacheArg.other "1"), ("a", CacheArg.other "2")] =
      generate_cache_key "test" [CacheArg.other "7"]
        [("a", CacheArg.other "2"), ("b", CacheArg.other "1")] ∧
     generate_cache_key "test" [CacheArg.other "7"]
        [("b", CacheArg.other "1"), ("a", CacheArg.other "2")] =
      "test" ++ ":" ++ md5Hex (strBytes (String.intercalate ":"
        ("test" :: ([CacheArg.other "7"].map argStr ++
          (sortKwargs [("b", CacheArg.other "1"), ("a", CacheArg.other "2")]).map
            (fun p => p.1 ++ ":" ++ argStr p.2)))))) :=
  ⟨List.Perm.swap _ _ _,
   cache_key_stability "test" [CacheArg.other "7"]
     [("b", CacheArg.other "1"), ("a", CacheArg.other "2")]
     [("a", CacheArg.other "2"), ("b", CacheArg.other "1")]
     (List.Perm.swap _ _ _) (by decide)⟩

/-! ## Theorems: JSON serialization round trip -/

theorem toNat_charOfNat (n : Nat) (h : n.isValidChar) :
    (Char.ofNat n).toNat = n := by
  unfold Char.ofNat
  rw [dif_pos h]
  rfl

theorem toNat_isValidChar (c : Char) : Nat.isValidChar c.toNat := by
  rcases c.valid with h | ⟨h1, h2⟩
  · exact Or.inl (by exact_mod_cast h)
  · exact Or.inr ⟨by exact_mod_cast h1, by exact_mod_cast h2⟩

theorem charOfNat_ne_of_toNat_ne (n : Nat) (h : n.isValidChar) (c : Char)
    (hne : n ≠ c.toNat) : Char.ofNat n ≠ c := by
  intro heq
  exact hne (by rw [← heq, toNat_charOfNat n h])

theorem parseHexDigit_hexDigitChar (d : Nat) (hd : d < 16) :
    parseHexDigit (hexDigitChar d) = some d := by
  interval_cases d <;> rfl

theorem parseHex4_toHex4 (n : Nat) (h : n < 65536) :
    parseHex4 (hexDigitChar (n / 4096 % 16)) (hexDigitChar (n / 256 % 16))
      (hexDigitChar (n / 16 % 16)) (hexDigitChar (n % 16)) = some n := by
  unfold parseHex4
  rw [parseHexDigit_hexDigitChar _ (Nat.mod_lt _ (by omega)),
      parseHexDigit_hexDigitChar _ (Nat.mod_lt _ (by omega)),
      parseHexDigit_hexDigitChar _ (Nat.mod_lt _ (by omega)),
      parseHexDigit_hexDigitChar _ (Nat.mod_lt _ (by omega))]
  simp only [Option.some.injEq]
  omega

theorem parseStringBody_cons_esc (rest : List Char) :
    parseStringBody ('\\' :: rest) = parseEscape rest := by
  rw [parseStringBody]
  simp

theorem parseStringBody_cons_lit (c : Char) (rest : List Char)
    (h1 : ¬(c = '"')) (h2 : ¬(c = '\\')) :
    parseStringBody (c :: rest) = consFst c (parseStringBody rest) := by
  rw [parseStringBody, if_neg h1, if_neg h2]

theorem parseEscape_u (rest : List Char) :
    parseEscape ('u' :: rest) = parseU rest := by
  rw [parseEscape]
  simp

/-- A `\\uXXXX` escape of a basic-plane non-surrogate value decodes to that
character. -/
theorem parseEscape_u_basic (a b c' d : Char) (rest : List Char) (n : Nat)
    (hp : parseHex4 a b c' d = some n)
    (hno1 : ¬(0xd800 ≤ n ∧ n < 0xdc00)) (hno2 : ¬(0xdc00 ≤ n ∧ n < 0xe000)) :
    parseEscape ('u' :: a :: b :: c' :: d :: rest) =
      consFst (Char.ofNat n) (parseStringBody rest) := by
  rw [parseEscape_u, parseU, hp, parseUHex, if_neg hno1, if_neg hno2]

/-- A surrogate-pair escape decodes to the combined astral character. -/
theorem parseEscape_u_pair (a b c' d a2 b2 c2 d2 : Char) (rest : List Char)
    (n n2 : Nat)
    (hp : parseHex4 a b c' d = some n)
    (hp2 : parseHex4 a2 b2 c2 d2 = some n2)
    (hhi : 0xd800 ≤ n ∧ n < 0xdc00) (hlo : 0xdc00 ≤ n2 ∧ n2 < 0xe000) :
    parseEscape ('u' :: a :: b :: c' :: d :: '\\' :: 'u' :: a2 :: b2 :: c2 :: d2 :: rest) =
      consFst (Char.ofNat (0x10000 + 1024 * (n - 0xd800) + (n2 - 0xdc00)))
        (parseStringBody rest) := by
  rw [parseEscape_u, parseU, hp, parseUHex, if_pos hhi, parseUPair,
    if_pos ⟨rfl, rfl⟩, hp2, parseUPair2, if_pos hlo]

theorem parseStringBody_escapeChar (c : Char) (tail : List Char) :
    parseStringBody (escapeChar c ++ tail) = consFst c (parseStringBody tail) := by
  by_cases h1 : c = '"'
  · subst h1
    show parseStringBody ('\\' :: '"' :: tail) = _
    rw [parseStringBody_cons_esc, parseEscape]
    simp
  by_cases h2 : c = '\\'
  · subst h2
    show parseStringBody ('\\' :: '\\' :: tail) = _
    rw [parseStringBody_cons_esc, parseEscape]
    simp
  by_cases h3 : c = '\x08'
  · subst h3
    show parseStringBody ('\\' :: 'b' :: tail) = _
    rw [parseStringBody_cons_esc, parseEscape]
    simp
  by_cases h4 : c = '\x0c'
  · subst h4
    show parseStringBody ('\\' :: 'f' :: tail) = _
    rw [parseStringBody_cons_esc, parseEscape]
    simp
  by_cases h5 : c = '\n'
  · subst h5
    show parseStringBody ('\\' :: 'n' :: tail) = _
    rw [parseStringBody_cons_esc, parseEscape]
    simp
  by_cases h6 : c = '\r'
  · subst h6
    show parseStringBody ('\\' :: 'r' :: tail) = _
    rw [parseStringBody_cons_esc, parseEscape]
    simp
  by_cases h7 : c = '\t'
  · subst h7
    show parseStringBody ('\\' :: 't' :: tail) = _
    rw [parseStringBody_cons_esc, parseEscape]
    simp
  by_cases h8 : 0x20 ≤ c.toNat ∧ c.toNat ≤ 0x7e
  · rw [escapeChar, if_neg h1, if_neg h2, if_neg h3, if_neg h4, if_neg h5,
      if_neg h6, if_neg h7, if_pos h8]
    exact parseStringBody_cons_lit c tail h1 h2
  have hval := toNat_isValidChar c
  have hsur : c.toNat < 0xd800 ∨ 0xdfff < c.toNat := by
    rcases hval with h | ⟨h', _⟩
    · exact Or.inl h
    · exact Or.inr h'
  have hlt : c.toNat < 0x110000 := by
    rcases hval with h | ⟨_, h'⟩ <;> omega
  by_cases h9 : c.toNat < 0x10000
  · -- basic-plane non-printable character: single \uXXXX escape
    rw [escapeChar, if_neg h1, if_neg h2, if_neg h3, if_neg h4, if_neg h5,
      if_neg h6, if_neg h7, if_neg h8, if_pos h9]
    show parseStringBody ('\\' :: 'u' :: hexDigitChar (c.toNat / 4096 % 16) ::
      hexDigitChar (c.toNat / 256 % 16) :: hexDigitChar (c.toNat / 16 % 16) ::
      hexDigitChar (c.toNat % 16) :: tail) = _
    rw [parseStringBody_cons_esc,
      parseEscape_u_basic _ _ _ _ _ c.toNat (parseHex4_toHex4 c.toNat h9)
        (by omega) (by omega),
      Char.ofNat_toNat]
  · -- astral character: surrogate pair escape
    rw [escapeChar, if_neg h1, if_neg h2, if_neg h3, if_neg h4, if_neg h5,
      if_neg h6, if_neg h7, if_neg h8, if_neg h9]
    show parseStringBody ('\\' :: 'u' ::
      hexDigitChar ((0xd800 + (c.toNat - 0x10000) / 1024) / 4096 % 16) ::
      hexDigitChar ((0xd800 + (c.toNat - 0x10000) / 1024) / 256 % 16) ::
      hexDigitChar ((0xd800 + (c.toNat - 0x10000) / 1024) / 16 % 16) ::
      hexDigitChar ((0xd800 + (c.toNat - 0x10000) / 1024) % 16) ::
      '\\' :: 'u' ::
      hexDigitChar ((0xdc00 + (c.toNat - 0x10000) % 1024) / 4096 % 16) ::
      hexDigitChar ((0xdc00 + (c.toNat - 0x10000) % 1024) / 256 % 16) ::
      hexDigitChar ((0xdc00 + (c.toNat - 0x10000) % 1024) / 16 % 16) ::
      hexDigitChar ((0xdc00 + (c.toNat - 0x10000) % 1024) % 16) :: tail) = _
    have hhi : (c.toNat - 0x10000) / 1024 < 1024 := by omega
    have hlo : (c.toNat - 0x10000) % 1024 < 1024 := Nat.mod_lt _ (by omega)
    rw [parseStringBody_cons_esc,
      parseEscape_u_pair _ _ _ _ _ _ _ _ tail
        (0xd800 + (c.toNat - 0x10000) / 1024)
        (0xdc00 + (c.toNat - 0x10000) % 1024)
        (parseHex4_toHex4 _ (by omega)) (parseHex4_toHex4 _ (by omega))
        (by omega) (by omega)]
    have harith : 0x10000 + 1024 * ((0xd800 + (c.toNat - 0x10000) / 1024) - 0xd800) +
        ((0xdc00 + (c.toNat - 0x10000) % 1024) - 0xdc00) = c.toNat := by omega
    rw [harith, Char.ofNat_toNat]

theorem parseStringBody_escape (cs : List Char) (tail : List Char) :
    parseStringBody (cs.flatMap escapeChar ++ '"' :: tail) = some (cs, tail) := by
  induction cs with
  | nil =>
    show parseStringBody ('"' :: tail) = _
    rw [parseStringBody]
    simp
  | cons c cs ih =>
    rw [List.flatMap_cons, List.append_assoc, parseStringBody_escapeChar, ih]
    rfl

theorem foldl_digits_acc (b : List Nat) (acc : Nat) :
    b.foldl (fun a d => a * 10 + d) acc = acc * 10 ^ b.length + valDigits b := by
  induction b generalizing acc with
  | nil => simp [valDigits]
  | cons d bs ih =>
    show bs.foldl _ (acc * 10 + d) = _
    rw [ih (acc * 10 + d)]
    have hv : valDigits (d :: bs) = d * 10 ^ bs.length + valDigits bs := by
      show bs.foldl _ (0 * 10 + d) = _
      rw [show 0 * 10 + d = d by omega, ih d]
    rw [hv, List.length_cons]
    ring

theorem valDigits_append (a b : List Nat) :
    valDigits (a ++ b) = valDigits a * 10 ^ b.length + valDigits b := by
  unfold valDigits
  rw [List.foldl_append]
  exact foldl_digits_acc b _

theorem valDigits_replicate_zero (k : Nat) (ds : List Nat) :
    valDigits (List.replicate k 0 ++ ds) = valDigits ds := by
  rw [valDigits_append]
  have : valDigits (List.replicate k 0) = 0 := by
    induction k with
    | zero => rfl
    | succ k ih =>
      rw [List.replicate_succ]
      show (List.replicate k 0).foldl _ (0 * 10 + 0) = 0
      rw [show 0 * 10 + 0 = 0 by omega]
      exact ih
  rw [this]
  omega

theorem natDigits_ne_nil (n : Nat) : natDigits n ≠ [] := by
  rw [natDigits]
  split
  · simp
  · simp

theorem natDigits_lt10 (n : Nat) : ∀ d ∈ natDigits n, d < 10 := by
  induction n using Nat.strong_induction_on with
  | _ n ih =>
    rw [natDigits]
    split
    · intro d hd
      simp at hd
      omega
    · intro d hd
      rcases List.mem_append.mp hd with h | h
      · exact ih (n / 10) (Nat.div_lt_self (by omega) (by omega)) d h
      · simp at h
        omega

theorem valDigits_natDigits (n : Nat) : valDigits (natDigits n) = n := by
  induction n using Nat.strong_induction_on with
  | _ n ih =>
    rw [natDigits]
    split
    · show [n].foldl _ 0 = n
      simp [valDigits]
    · rw [valDigits_append]
      rw [ih (n / 10) (Nat.div_lt_self (by omega) (by omega))]
      show n / 10 * 10 ^ [n % 10].length + [n % 10].foldl _ 0 = n
      simp only [List.length_singleton, List.foldl_cons, List.foldl_nil]
      omega

/-- `parseDigitsAux` consumes exactly a printed digit block when the
remaining input does not begin with a digit. -/
theorem parseDigitsAux_spec (ds : List Nat) (rest : List Char) (acc cnt : Nat)
    (hds : ∀ d ∈ ds, d < 10)
    (hrest : ∀ c, rest.head? = some c → ¬(48 ≤ c.toNat ∧ c.toNat ≤ 57)) :
    parseDigitsAux (digitsToChars ds ++ rest) acc cnt =
      (acc * 10 ^ ds.length + valDigits ds, cnt + ds.length, rest) := by
  induction ds generalizing acc cnt with
  | nil =>
    cases rest with
    | nil => simp [parseDigitsAux, valDigits]
    | cons c cs =>
      have hnd := hrest c rfl
      show parseDigitsAux (c :: cs) acc cnt = _
      rw [parseDigitsAux, if_neg hnd]
      simp [valDigits]
  | cons d ds ih =>
    have hd : d < 10 := hds d (by simp)
    have hvalid : (48 + d).isValidChar := Or.inl (by omega)
    have htn : (Char.ofNat (48 + d)).toNat = 48 + d := toNat_charOfNat _ hvalid
    show parseDigitsAux (Char.ofNat (48 + d) :: (digitsToChars ds ++ rest)) acc cnt = _
    rw [parseDigitsAux, htn, if_pos ⟨by omega, by omega⟩]
    rw [ih _ _ (fun x hx => hds x (List.mem_cons_of_mem d hx))]
    have hval : valDigits (d :: ds) = d * 10 ^ ds.length + valDigits ds := by
      show ds.foldl _ (0 * 10 + d) = _
      rw [show 0 * 10 + d = d by omega]
      exact foldl_digits_acc ds d
    rw [hval]
    have h1 : (acc * 10 + (48 + d - 48)) * 10 ^ ds.length + valDigits ds =
        acc * 10 ^ (d :: ds).length + (d * 10 ^ ds.length + valDigits ds) := by
      rw [List.length_cons, show 48 + d - 48 = d by omega]
      ring
    rw [h1]
    simp only [List.length_cons]
    rw [show cnt + 1 + ds.length = cnt + (ds.length + 1) by omega]

theorem numBoundary_head_not_digit (rest : List Char) (hb : numBoundary rest) :
    ∀ c, rest.head? = some c → ¬(48 ≤ c.toNat ∧ c.toNat ≤ 57) := by
  cases rest with
  | nil => intro c hc; simp at hc
  | cons c cs =>
    intro c' hc'
    simp at hc'
    subst hc'
    exact hb.1

theorem numBoundary_head_not_dot (rest : List Char) (hb : numBoundary rest) :
    ∀ c, rest.head? = some c → ¬(c = '.') := by
  cases rest with
  | nil => intro c hc; simp at hc
  | cons c cs =>
    intro c' hc'
    simp at hc'
    subst hc'
    exact hb.2

theorem natDigits_exists_cons (n : Nat) :
    ∃ d ds', natDigits n = d :: ds' := by
  cases h : natDigits n with
  | nil => exact absurd h (natDigits_ne_nil _)
  | cons d ds' => exact ⟨d, ds', rfl⟩

/-- An unsigned digit block followed by a boundary parses as the integer it
prints. -/
theorem parseNumber_digits (ds : List Nat) (rest : List Char)
    (hds : ∀ d ∈ ds, d < 10) (hne : ds ≠ [])
    (hrd : ∀ c, rest.head? = some c → ¬(48 ≤ c.toNat ∧ c.toNat ≤ 57))
    (hrp : ∀ c, rest.head? = some c → ¬(c = '.')) :
    parseNumber (digitsToChars ds ++ rest) = some (.int (valDigits ds), rest) := by
  obtain ⟨d, ds', rfl⟩ : ∃ d ds', ds = d :: ds' := by
    cases ds with
    | nil => exact absurd rfl hne
    | cons d ds' => exact ⟨d, ds', rfl⟩
  have hd10 : d < 10 := hds d (by simp)
  have htn : (Char.ofNat (48 + d)).toNat = 48 + d :=
    toNat_charOfNat _ (Or.inl (by omega))
  have hne45 : ¬(Char.ofNat (48 + d) = '-') :=
    charOfNat_ne_of_toNat_ne _ (Or.inl (by omega)) _ (by simp; omega)
  show parseNumber (Char.ofNat (48 + d) :: (digitsToChars ds' ++ rest)) = _
  rw [parseNumber]
  simp only [hne45, decide_eq_false, decide_False, Bool.false_eq_true, if_false,
    List.tail_cons]
  rw [show Char.ofNat (48 + d) :: (digitsToChars ds' ++ rest) =
    digitsToChars (d :: ds') ++ rest from rfl]
  rw [parseDigitsAux_spec _ _ _ _ hds hrd]
  simp only []
  rw [if_neg (by simp)]
  cases rest with
  | nil => simp
  | cons c r3 =>
    have : ¬(c = '.') := hrp c rfl
    simp [this]

/-- A sign then an unsigned digit block parses as the negated integer. -/
theorem parseNumber_neg_digits (ds : List Nat) (rest : List Char)
    (hds : ∀ d ∈ ds, d < 10) (hne : ds ≠ [])
    (hrd : ∀ c, rest.head? = some c → ¬(48 ≤ c.toNat ∧ c.toNat ≤ 57))
    (hrp : ∀ c, rest.head? = some c → ¬(c = '.')) :
    parseNumber ('-' :: (digitsToChars ds ++ rest)) =
      some (.int (-(valDigits ds : Int)), rest) := by
  obtain ⟨d, ds', rfl⟩ : ∃ d ds', ds = d :: ds' := by
    cases ds with
    | nil => exact absurd rfl hne
    | cons d ds' => exact ⟨d, ds', rfl⟩
  rw [parseNumber]
  simp only [eq_self_iff_true, decide_True, if_true, List.tail_cons]
  rw [parseDigitsAux_spec _ _ _ _ hds hrd]
  simp only []
  rw [if_neg (by simp)]
  cases rest with
  | nil => simp
  | cons c r3 =>
    have : ¬(c = '.') := hrp c rfl
    simp [this]

/-- An unsigned `digits.digits` block parses as the printed float. -/
theorem parseNumber_digits_frac (I D : List Nat) (rest : List Char)
    (hI : ∀ d ∈ I, d < 10) (hD : ∀ d ∈ D, d < 10)
    (hneI : I ≠ []) (hneD : D ≠ [])
    (hrd : ∀ c, rest.head? = some c → ¬(48 ≤ c.toNat ∧ c.toNat ≤ 57)) :
    parseNumber (digitsToChars I ++ ('.' :: (digitsToChars D ++ rest))) =
      some (.float ((valDigits I * 10 ^ D.length + valDigits D : Nat) : Int)
        D.length, rest) := by
  obtain ⟨d, ds', rfl⟩ : ∃ d ds', I = d :: ds' := by
    cases I with
    | nil => exact absurd rfl hneI
    | cons d ds' => exact ⟨d, ds', rfl⟩
  have hd10 : d < 10 := hI d (by simp)
  have hne45 : ¬(Char.ofNat (48 + d) = '-') :=
    charOfNat_ne_of_toNat_ne _ (Or.inl (by omega)) _ (by simp; omega)
  have hdot : ∀ c : Char, ('.' :: (digitsToChars D ++ rest)).head? = some c →
      ¬(48 ≤ c.toNat ∧ c.toNat ≤ 57) := by
    intro c hc
    simp at hc
    subst hc
    decide
  have hstep1 := parseDigitsAux_spec (d :: ds') ('.' :: (digitsToChars D ++ rest))
    0 0 hI hdot
  have hstep2 := parseDigitsAux_spec D rest 0 0 hD hrd
  show parseNumber (Char.ofNat (48 + d) ::
    (digitsToChars ds' ++ ('.' :: (digitsToChars D ++ rest)))) = _
  rw [parseNumber]
  simp only [hne45, decide_eq_false, decide_False, Bool.false_eq_true, if_false,
    List.tail_cons]
  rw [show Char.ofNat (48 + d) :: (digitsToChars ds' ++ ('.' :: (digitsToChars D ++ rest))) =
    digitsToChars (d :: ds') ++ ('.' :: (digitsToChars D ++ rest)) from rfl]
  rw [hstep1]
  simp only []
  rw [if_neg (by simp)]
  rw [hstep2]
  simp only [eq_self_iff_true, if_true]
  rw [if_neg ?lenD]
  case lenD =>
    simp only [Nat.zero_add]
    intro hD0
    exact hneD (List.eq_nil_of_length_eq_zero hD0)
  simp

/-- A sign then an unsigned `digits.digits` block parses as the negated
printed float. -/
theorem parseNumber_neg_digits_frac (I D : List Nat) (rest : List Char)
    (hI : ∀ d ∈ I, d < 10) (hD : ∀ d ∈ D, d < 10)
    (hneI : I ≠ []) (hneD : D ≠ [])
    (hrd : ∀ c, rest.head? = some c → ¬(48 ≤ c.toNat ∧ c.toNat ≤ 57)) :
    parseNumber ('-' :: (digitsToChars I ++ ('.' :: (digitsToChars D ++ rest)))) =
      some (.float (-((valDigits I * 10 ^ D.length + valDigits D : Nat) : Int))
        D.length, rest) := by
  have hdot : ∀ c : Char, ('.' :: (digitsToChars D ++ rest)).head? = some c →
      ¬(48 ≤ c.toNat ∧ c.toNat ≤ 57) := by
    intro c hc
    simp at hc
    subst hc
    decide
  have hstep1 := parseDigitsAux_spec I ('.' :: (digitsToChars D ++ rest))
    0 0 hI hdot
  have hstep2 := parseDigitsAux_spec D rest 0 0 hD hrd
  rw [parseNumber]
  simp only [eq_self_iff_true, decide_True, if_true, List.tail_cons]
  rw [hstep1]
  simp only []
  rw [if_neg ?lenI]
  case lenI =>
    simp only [Nat.zero_add]
    intro hI0
    exact hneI (List.eq_nil_of_length_eq_zero hI0)
  rw [hstep2]
  simp only [eq_self_iff_true, if_true]
  rw [if_neg ?lenD]
  case lenD =>
    simp only [Nat.zero_add]
    intro hD0
    exact hneD (List.eq_nil_of_length_eq_zero hD0)
  simp

theorem parseNumber_printInt (m : Int) (rest : List Char) (hb : numBoundary rest) :
    parseNumber (printInt m ++ rest) = some (.int m, rest) := by
  have hrd := numBoundary_head_not_digit rest hb
  have hrp := numBoundary_head_not_dot rest hb
  by_cases hm : m < 0
  · rw [printInt, if_pos hm, List.cons_append,
      parseNumber_neg_digits _ _ (natDigits_lt10 _) (natDigits_ne_nil _) hrd hrp,
      valDigits_natDigits]
    have : -((m.natAbs : Nat) : Int) = m := by
      rw [Int.ofNat_natAbs_of_nonpos (le_of_lt hm)]
      ring
    rw [this]
  · rw [printInt, if_neg hm,
      parseNumber_digits _ _ (natDigits_lt10 _) (natDigits_ne_nil _) hrd hrp,
      valDigits_natDigits]
    have : ((m.natAbs : Nat) : Int) = m := Int.natAbs_of_nonneg (not_lt.mp hm)
    rw [this]

theorem parseNumber_printFloat (m : Int) (e : Nat) (rest : List Char)
    (hb : numBoundary rest) :
    parseNumber (printFloat m e ++ rest) =
      some (if e = 0 then PyVal.float (m * 10) 1 else PyVal.float m e, rest) := by
  have hrd := numBoundary_head_not_digit rest hb
  by_cases he : e = 0
  · subst he
    rw [if_pos rfl, printFloat, if_pos rfl, List.append_assoc]
    rw [show ['.', '0'] ++ rest = '.' :: (digitsToChars [0] ++ rest) from rfl]
    have h0 : ∀ x ∈ [(0 : Nat)], x < 10 := by
      intro x hx
      simp at hx
      omega
    by_cases hm : m < 0
    · rw [printInt, if_pos hm, List.cons_append,
        parseNumber_neg_digits_frac _ _ _ (natDigits_lt10 _) h0
          (natDigits_ne_nil _) (by simp) hrd,
        valDigits_natDigits]
      have hv : valDigits [0] = 0 := rfl
      have hl : ([(0 : Nat)]).length = 1 := rfl
      rw [hv, hl]
      have hna : ((m.natAbs : Nat) : Int) = -m :=
        Int.ofNat_natAbs_of_nonpos (le_of_lt hm)
      have : -((m.natAbs * 10 ^ 1 + 0 : Nat) : Int) = m * 10 := by
        push_cast [hna]
        ring
      rw [this]
    · rw [printInt, if_neg hm,
        parseNumber_digits_frac _ _ _ (natDigits_lt10 _) h0
          (natDigits_ne_nil _) (by simp) hrd,
        valDigits_natDigits]
      have hv : valDigits [0] = 0 := rfl
      have hl : ([(0 : Nat)]).length = 1 := rfl
      rw [hv, hl]
      have hna : ((m.natAbs : Nat) : Int) = m :=
        Int.natAbs_of_nonneg (not_lt.mp hm)
      have : ((m.natAbs * 10 ^ 1 + 0 : Nat) : Int) = m * 10 := by
        push_cast [hna]
        ring
      rw [this]
  · rw [if_neg he]
    simp only [printFloat, if_neg he]
    set L := natDigits m.natAbs with hL
    set padded := List.replicate (e + 1 - L.length) 0 ++ L with hpadded
    have hplen : e + 1 ≤ padded.length := by
      rw [hpadded]
      rw [List.length_append, List.length_replicate]
      omega
    have hdig : ∀ d ∈ padded, d < 10 := by
      intro d hd
      rcases List.mem_append.mp hd with h | h
      · have := List.eq_of_mem_replicate h
        omega
      · exact natDigits_lt10 _ d h
    have htake : ∀ d ∈ padded.take (padded.length - e), d < 10 :=
      fun d hd => hdig d (List.take_subset _ _ hd)
    have hdrop : ∀ d ∈ padded.drop (padded.length - e), d < 10 :=
      fun d hd => hdig d (List.drop_subset _ _ hd)
    have htlen : (padded.take (padded.length - e)).length = padded.length - e := by
      rw [List.length_take]
      omega
    have hdlen : (padded.drop (padded.length - e)).length = e := by
      rw [List.length_drop]
      omega
    have htne : padded.take (padded.length - e) ≠ [] := by
      intro hnil
      have := htlen
      rw [hnil] at this
      simp at this
      omega
    have hdne : padded.drop (padded.length - e) ≠ [] := by
      intro hnil
      have := hdlen
      rw [hnil] at this
      simp at this
      omega
    have hval : valDigits (padded.take (padded.length - e)) *
        10 ^ (padded.drop (padded.length - e)).length +
        valDigits (padded.drop (padded.length - e)) = m.natAbs := by
      rw [← valDigits_append, List.take_append_drop, hpadded,
        valDigits_replicate_zero, hL, valDigits_natDigits]
    by_cases hm : m < 0
    · rw [if_pos hm]
      simp only [List.append_assoc, List.cons_append, List.singleton_append,
        List.nil_append]
      rw [parseNumber_neg_digits_frac _ _ _ htake hdrop htne hdne hrd]
      rw [hval, hdlen]
      have : -((m.natAbs : Nat) : Int) = m := by
        rw [Int.ofNat_natAbs_of_nonpos (le_of_lt hm)]
        ring
      rw [this]
    · rw [if_neg hm]
      simp only [List.append_assoc, List.cons_append, List.singleton_append,
        List.nil_append]
      rw [parseNumber_digits_frac _ _ _ htake hdrop htne hdne hrd]
      rw [hval, hdlen]
      have : ((m.natAbs : Nat) : Int) = m := Int.natAbs_of_nonneg (not_lt.mp hm)
      rw [this]

theorem skipWs_cons (c : Char) (l : List Char) (h : isWs c = false) :
    skipWs (c :: l) = c :: l := by
  rw [skipWs, h]
  simp

theorem parseVal_ws (fuel : Nat) (input : List Char) :
    parseVal fuel (' ' :: input) = parseVal fuel input := by
  have hskip : skipWs (' ' :: input) = skipWs input := by
    rw [skipWs]
    simp [isWs]
  cases fuel with
  | zero =>
    rw [parseVal, parseVal]
  | succ g =>
    rw [parseVal, hskip]
    rw [parseVal]

theorem needVal_pos (v : PyVal) : 1 ≤ needVal v := by
  cases v <;> simp [needVal]

theorem needItems_zero {xs : List PyVal} (h : needItems xs ≤ 0) : xs = [] := by
  cases xs with
  | nil => rfl
  | cons x xs =>
    rw [needItems] at h
    omega

theorem needEntries_zero {kvs : List (String × PyVal)} (h : needEntries kvs ≤ 0) :
    kvs = [] := by
  cases kvs with
  | nil => rfl
  | cons e es =>
    rw [needEntries] at h
    omega

theorem jsonDumpsList_eq (xs : List PyVal) :
    jsonDumpsList xs = xs.map jsonDumps := by
  induction xs with
  | nil => rfl
  | cons x xs ih => rw [jsonDumpsList, ih, List.map_cons]

theorem jsonDumpsDict_eq (kvs : List (String × PyVal)) :
    jsonDumpsDict kvs = kvs.map entryChars := by
  induction kvs with
  | nil => rfl
  | cons e es ih =>
    obtain ⟨k, v⟩ := e
    rw [jsonDumpsDict, ih, List.map_cons]
    rfl

theorem flatMap_map_sep {α : Type} (f : α → List Char) (ys : List α) :
    (ys.map f).flatMap (fun z => ',' :: ' ' :: z) =
      ys.flatMap (fun z => ',' :: ' ' :: f z) := by
  induction ys with
  | nil => rfl
  | cons y ys ih => rw [List.map_cons, List.flatMap_cons, List.flatMap_cons, ih]

theorem printInt_head (m : Int) :
    ∃ c cs, printInt m = c :: cs ∧
      (c = '-' ∨ (48 ≤ c.toNat ∧ c.toNat ≤ 57)) := by
  obtain ⟨d, ds', heq⟩ := natDigits_exists_cons m.natAbs
  have hd : d < 10 := natDigits_lt10 _ d (by rw [heq]; simp)
  have htn : (Char.ofNat (48 + d)).toNat = 48 + d :=
    toNat_charOfNat _ (Or.inl (by omega))
  by_cases hm : m < 0
  · exact ⟨'-', _, by rw [printInt, if_pos hm], Or.inl rfl⟩
  · refine ⟨Char.ofNat (48 + d), digitsToChars ds', ?_, Or.inr (by omega)⟩
    rw [printInt, if_neg hm, heq]
    rfl

theorem printFloat_head (m : Int) (e : Nat) :
    ∃ c cs, printFloat m e = c :: cs ∧
      (c = '-' ∨ (48 ≤ c.toNat ∧ c.toNat ≤ 57)) := by
  by_cases he : e = 0
  · subst he
    obtain ⟨c, cs, heq, hc⟩ := printInt_head m
    refine ⟨c, cs ++ ['.', '0'], ?_, hc⟩
    rw [printFloat, if_pos rfl, heq]
    rfl
  · set padded := List.replicate (e + 1 - (natDigits m.natAbs).length) 0 ++
      natDigits m.natAbs with hpadded
    have hshape : printFloat m e = (if m < 0 then ['-'] else []) ++
        (digitsToChars (padded.take (padded.length - e)) ++
          '.' :: digitsToChars (padded.drop (padded.length - e))) := by
      simp only [printFloat, if_neg he]
      rw [← hpadded]
      rw [List.append_assoc]
    have hplen : e + 1 ≤ padded.length := by
      rw [hpadded, List.length_append, List.length_replicate]
      have h1 : 1 ≤ (natDigits m.natAbs).length := by
        cases h : natDigits m.natAbs with
        | nil => exact absurd h (natDigits_ne_nil _)
        | cons a l => simp
      omega
    by_cases hm : m < 0
    · refine ⟨'-', digitsToChars (padded.take (padded.length - e)) ++
        '.' :: digitsToChars (padded.drop (padded.length - e)), ?_, Or.inl rfl⟩
      rw [hshape, if_pos hm]
      rfl
    · obtain ⟨d, ds', heq⟩ : ∃ d ds', padded.take (padded.length - e) = d :: ds' := by
        cases h : padded.take (padded.length - e) with
        | nil =>
          have := congrArg List.length h
          rw [List.length_take] at this
          simp at this
          omega
        | cons d ds' => exact ⟨d, ds', rfl⟩
      have hd : d < 10 := by
        have hmem : d ∈ padded := List.take_subset _ _ (by rw [heq]; simp)
        rcases List.mem_append.mp hmem with h | h
        · have := List.eq_of_mem_replicate h
          omega
        · exact natDigits_lt10 _ d h
      have htn : (Char.ofNat (48 + d)).toNat = 48 + d :=
        toNat_charOfNat _ (Or.inl (by omega))
      refine ⟨Char.ofNat (48 + d), digitsToChars ds' ++
        '.' :: digitsToChars (padded.drop (padded.length - e)), ?_,
        Or.inr (by omega)⟩
      rw [hshape, if_neg hm, heq]
      rfl

/-- A character opening a printed number is none of the parser's keyword,
string, list or dict openers, and is not whitespace. -/
theorem numHead_ne (c : Char)
    (hc : c = '-' ∨ (48 ≤ c.toNat ∧ c.toNat ≤ 57)) :
    ¬(c = 'n') ∧ ¬(c = 't') ∧ ¬(c = 'f') ∧ ¬(c = '"') ∧ ¬(c = '[') ∧
    ¬(c = '{') ∧ isWs c = false := by
  rcases hc with rfl | ⟨h1, h2⟩
  · exact ⟨by decide, by decide, by decide, by decide, by decide, by decide,
      by decide⟩
  · refine ⟨?_, ?_, ?_, ?_, ?_, ?_, ?_⟩
    · intro h; subst h; exact absurd h2 (by decide)
    · intro h; subst h; exact absurd h2 (by decide)
    · intro h; subst h; exact absurd h2 (by decide)
    · intro h; subst h; exact absurd h1 (by decide)
    · intro h; subst h; exact absurd h2 (by decide)
    · intro h; subst h; exact absurd h2 (by decide)
    · rw [isWs]
      have hs : ¬(c = ' ') := by
        intro h; subst h; exact absurd h1 (by decide)
      have ht : ¬(c = '\t') := by
        intro h; subst h; exact absurd h1 (by decide)
      have hn : ¬(c = '\n') := by
        intro h; subst h; exact absurd h1 (by decide)
      have hr : ¬(c = '\r') := by
        intro h; subst h; exact absurd h1 (by decide)
      simp [hs, ht, hn, hr]

/-- Every printed value starts with a character that is not whitespace and
not a closing bracket. -/
theorem jsonDumps_shape (v : PyVal) :
    ∃ c cs, jsonDumps v = c :: cs ∧ isWs c = false ∧ ¬(c = ']') ∧ ¬(c = '}') := by
  cases v with
  | none =>
    refine ⟨'n', _, rfl, ?_, ?_, ?_⟩ <;> decide
  | bool b =>
    cases b with
    | true => refine ⟨'t', _, rfl, ?_, ?_, ?_⟩ <;> decide
    | false => refine ⟨'f', _, rfl, ?_, ?_, ?_⟩ <;> decide
  | int n =>
    obtain ⟨c, cs, heq, hc⟩ := printInt_head n
    obtain ⟨_, _, _, _, _, _, hws⟩ := numHead_ne c hc
    refine ⟨c, cs, by rw [jsonDumps, heq], hws, ?_, ?_⟩
    · rcases hc with rfl | ⟨h1, h2⟩
      · decide
      · intro h; subst h; exact absurd h2 (by decide)
    · rcases hc with rfl | ⟨h1, h2⟩
      · decide
      · intro h; subst h; exact absurd h2 (by decide)
  | float m e =>
    obtain ⟨c, cs, heq, hc⟩ := printFloat_head m e
    obtain ⟨_, _, _, _, _, _, hws⟩ := numHead_ne c hc
    refine ⟨c, cs, by rw [jsonDumps, heq], hws, ?_, ?_⟩
    · rcases hc with rfl | ⟨h1, h2⟩
      · decide
      · intro h; subst h; exact absurd h2 (by decide)
    · rcases hc with rfl | ⟨h1, h2⟩
      · decide
      · intro h; subst h; exact absurd h2 (by decide)
  | dec m e =>
    obtain ⟨c, cs, heq, hc⟩ := printFloat_head m e
    obtain ⟨_, _, _, _, _, _, hws⟩ := numHead_ne c hc
    refine ⟨c, cs, by rw [jsonDumps, heq], hws, ?_, ?_⟩
    · rcases hc with rfl | ⟨h1, h2⟩
      · decide
      · intro h; subst h; exact absurd h2 (by decide)
    · rcases hc with rfl | ⟨h1, h2⟩
      · decide
      · intro h; subst h; exact absurd h2 (by decide)
  | str s => refine ⟨'"', _, rfl, ?_, ?_, ?_⟩ <;> decide
  | list xs => refine ⟨'[', _, rfl, ?_, ?_, ?_⟩ <;> decide
  | dict kvs => refine ⟨'{', _, rfl, ?_, ?_, ?_⟩ <;> decide

theorem numBoundary_items (xs : List PyVal) (rest : List Char) :
    numBoundary (xs.flatMap (fun y => ',' :: ' ' :: jsonDumps y) ++ ']' :: rest) := by
  cases xs with
  | nil => exact ⟨by decide, by decide⟩
  | cons x xs => exact ⟨by decide, by decide⟩

theorem numBoundary_entries (kvs : List (String × PyVal)) (rest : List Char) :
    numBoundary (kvs.flatMap (fun p => ',' :: ' ' :: entryChars p) ++ '}' :: rest) := by
  cases kvs with
  | nil => exact ⟨by decide, by decide⟩
  | cons e es => exact ⟨by decide, by decide⟩

/-! Step lemmas for the parser, conditioned on the outcome of each nested
scan so that every rewrite target is constructor-shaped. -/

theorem parseListRest_close (fuel : Nat) (acc : List PyVal) (rest : List Char) :
    parseListRest fuel acc (']' :: rest) = some (.list acc, rest) := by
  rw [parseListRest, skipWs_cons _ _ (by decide)]
  simp

theorem parseDictRest_close (fuel : Nat) (acc : List (String × PyVal))
    (rest : List Char) :
    parseDictRest fuel acc ('}' :: rest) = some (.dict acc, rest) := by
  rw [parseDictRest, skipWs_cons _ _ (by decide)]
  simp

theorem parseListRest_comma (g : Nat) (acc : List PyVal) (tail : List Char)
    (v : PyVal) (r2 : List Char) (hpv : parseVal g tail = some (v, r2)) :
    parseListRest (g + 1) acc (',' :: tail) = parseListRest g (acc ++ [v]) r2 := by
  rw [parseListRest, skipWs_cons _ _ (by decide)]
  simp [hpv]

theorem parseDictRest_comma (g : Nat) (acc : List (String × PyVal))
    (tail : List Char) (ev : String × PyVal) (r2 : List Char)
    (hpe : parseDictEntry g (skipWs tail) = some (ev, r2)) :
    parseDictRest (g + 1) acc (',' :: tail) = parseDictRest g (acc ++ [ev]) r2 := by
  rw [parseDictRest, skipWs_cons _ _ (by decide)]
  simp [hpe]

theorem parseVal_null (g : Nat) (rest : List Char) :
    parseVal (g + 1) ('n' :: 'u' :: 'l' :: 'l' :: rest) = some (.none, rest) := by
  rw [parseVal, skipWs_cons _ _ (by decide)]
  simp

theorem parseVal_true (g : Nat) (rest : List Char) :
    parseVal (g + 1) ('t' :: 'r' :: 'u' :: 'e' :: rest) =
      some (.bool true, rest) := by
  rw [parseVal, skipWs_cons _ _ (by decide)]
  simp

theorem parseVal_false (g : Nat) (rest : List Char) :
    parseVal (g + 1) ('f' :: 'a' :: 'l' :: 's' :: 'e' :: rest) =
      some (.bool false, rest) := by
  rw [parseVal, skipWs_cons _ _ (by decide)]
  simp

theorem parseVal_string (g : Nat) (tail : List Char) (s : List Char)
    (r : List Char) (hsb : parseStringBody tail = some (s, r)) :
    parseVal (g + 1) ('"' :: tail) = some (.str (String.mk s), r) := by
  rw [parseVal, skipWs_cons _ _ (by decide)]
  simp [hsb]

theorem parseVal_number (g : Nat) (c : Char) (rest : List Char)
    (hc : c = '-' ∨ (48 ≤ c.toNat ∧ c.toNat ≤ 57)) :
    parseVal (g + 1) (c :: rest) = parseNumber (c :: rest) := by
  obtain ⟨h1, h2, h3, h4, h5, h6, hws⟩ := numHead_ne c hc
  rw [parseVal, skipWs_cons _ _ hws]
  simp [h1, h2, h3, h4, h5, h6]

theorem parseVal_empty_list (g : Nat) (tail r2 : List Char)
    (hskip : skipWs tail = ']' :: r2) :
    parseVal (g + 1) ('[' :: tail) = some (.list [], r2) := by
  rw [parseVal, skipWs_cons _ _ (by decide)]
  simp [hskip]

theorem parseVal_empty_dict (g : Nat) (tail r2 : List Char)
    (hskip : skipWs tail = '}' :: r2) :
    parseVal (g + 1) ('{' :: tail) = some (.dict [], r2) := by
  rw [parseVal, skipWs_cons _ _ (by decide)]
  simp [hskip]

theorem parseVal_bracket (g : Nat) (tail : List Char) (d : Char)
    (r2 : List Char) (hskip : skipWs tail = d :: r2) (hne : ¬(d = ']'))
    (v : PyVal) (r3 : List Char) (hpv : parseVal g (d :: r2) = some (v, r3)) :
    parseVal (g + 1) ('[' :: tail) = parseListRest g [v] r3 := by
  rw [parseVal, skipWs_cons _ _ (by decide)]
  simp [hskip, hne, hpv]

theorem parseVal_brace (g : Nat) (tail : List Char) (d : Char)
    (r2 : List Char) (hskip : skipWs tail = d :: r2) (hne : ¬(d = '}'))
    (ev : String × PyVal) (r3 : List Char)
    (hpe : parseDictEntry g (d :: r2) = some (ev, r3)) :
    parseVal (g + 1) ('{' :: tail) = parseDictRest g [ev] r3 := by
  rw [parseVal, skipWs_cons _ _ (by decide)]
  simp [hskip, hne, hpe]

theorem parseDictEntry_step (fuel : Nat) (tail : List Char) (k : List Char)
    (r2 : List Char) (hsb : parseStringBody tail = some (k, r2))
    (r3 : List Char) (hskip : skipWs r2 = ':' :: r3)
    (v : PyVal) (r4 : List Char) (hpv : parseVal fuel r3 = some (v, r4)) :
    parseDictEntry fuel ('"' :: tail) = some ((String.mk k, v), r4) := by
  rw [parseDictEntry]
  simp [hsb, hskip, hpv]

/-- The parser–printer round trip, proved for all four parsing entry points
simultaneously by induction on the fuel. -/
theorem parse_print_all : ∀ fuel : Nat,
    (∀ v rest, needVal v ≤ fuel → numBoundary rest →
      parseVal fuel (jsonDumps v ++ rest) = some (reloadImage v, rest)) ∧
    (∀ xs acc rest, needItems xs ≤ fuel →
      parseListRest fuel acc
        (xs.flatMap (fun y => ',' :: ' ' :: jsonDumps y) ++ ']' :: rest) =
        some (.list (acc ++ reloadImageList xs), rest)) ∧
    (∀ kvs acc rest, needEntries kvs ≤ fuel →
      parseDictRest fuel acc
        (kvs.flatMap (fun p => ',' :: ' ' :: entryChars p) ++ '}' :: rest) =
        some (.dict (acc ++ reloadImageDict kvs), rest)) ∧
    (∀ (k : String) (v : PyVal) rest, needVal v ≤ fuel → numBoundary rest →
      parseDictEntry fuel (entryChars (k, v) ++ rest) =
        some ((k, reloadImage v), rest)) := by
  intro fuel
  induction fuel with
  | zero =>
    refine ⟨?_, ?_, ?_, ?_⟩
    · intro v rest hneed _
      have := needVal_pos v
      omega
    · intro xs acc rest hneed
      have hnil := needItems_zero hneed
      subst hnil
      rw [List.flatMap_nil, List.nil_append, parseListRest_close]
      rw [reloadImageList, List.append_nil]
    · intro kvs acc rest hneed
      have hnil := needEntries_zero hneed
      subst hnil
      rw [List.flatMap_nil, List.nil_append, parseDictRest_close]
      rw [reloadImageDict, List.append_nil]
    · intro k v rest hneed _
      have := needVal_pos v
      omega
  | succ g IH =>
    obtain ⟨IHval, IHlist, IHdict, IHentry⟩ := IH
    have hws_space : ∀ l : List Char, skipWs (' ' :: l) = skipWs l := by
      intro l
      rw [skipWs]
      simp [isWs]
    -- parseVal at fuel g+1
    have hval : ∀ v rest, needVal v ≤ g + 1 → numBoundary rest →
        parseVal (g + 1) (jsonDumps v ++ rest) = some (reloadImage v, rest) := by
      intro v rest hneed hb
      cases v with
      | none =>
        rw [jsonDumps]
        simp only [List.cons_append, List.nil_append]
        rw [parseVal_null, reloadImage]
      | bool b =>
        cases b with
        | true =>
          rw [jsonDumps]
          simp only [List.cons_append, List.nil_append]
          rw [parseVal_true, reloadImage]
        | false =>
          rw [jsonDumps]
          simp only [List.cons_append, List.nil_append]
          rw [parseVal_false, reloadImage]
      | int n =>
        rw [jsonDumps]
        obtain ⟨c, cs, heq, hc⟩ := printInt_head n
        rw [heq]
        simp only [List.cons_append]
        rw [parseVal_number g c _ hc, ← List.cons_append, ← heq,
          parseNumber_printInt n rest hb, reloadImage]
      | float m e =>
        rw [jsonDumps]
        obtain ⟨c, cs, heq, hc⟩ := printFloat_head m e
        rw [heq]
        simp only [List.cons_append]
        rw [parseVal_number g c _ hc, ← List.cons_append, ← heq,
          parseNumber_printFloat m e rest hb, reloadImage]
      | dec m e =>
        rw [jsonDumps]
        obtain ⟨c, cs, heq, hc⟩ := printFloat_head m e
        rw [heq]
        simp only [List.cons_append]
        rw [parseVal_number g c _ hc, ← List.cons_append, ← heq,
          parseNumber_printFloat m e rest hb, reloadImage]
      | str s =>
        rw [jsonDumps]
        simp only [List.cons_append, List.append_assoc, List.nil_append]
        rw [parseVal_string g _ _ _ (parseStringBody_escape s.data rest),
          reloadImage]
      | list xs =>
        cases xs with
        | nil =>
          rw [jsonDumps, jsonDumpsList, sepJoin]
          simp only [List.cons_append, List.nil_append]
          rw [parseVal_empty_list g _ rest (skipWs_cons ']' rest (by decide)),
            reloadImage, reloadImageList]
        | cons x xs =>
          rw [jsonDumps, jsonDumpsList_eq, List.map_cons, sepJoin,
            flatMap_map_sep]
          simp only [List.cons_append, List.append_assoc, List.nil_append]
          have hneed' : needVal x ≤ g ∧ needItems xs ≤ g := by
            rw [needVal, needItems] at hneed
            omega
          obtain ⟨c, cs, heqx, hwsx, hnrx, _⟩ := jsonDumps_shape x
          have hshape2 : ∀ X : List Char, jsonDumps x ++ X = c :: (cs ++ X) := by
            intro X
            rw [heqx]
            rfl
          have hbX : numBoundary
              (xs.flatMap (fun y => ',' :: ' ' :: jsonDumps y) ++ ']' :: rest) :=
            numBoundary_items xs rest
          have hpv := IHval x
            (xs.flatMap (fun y => ',' :: ' ' :: jsonDumps y) ++ ']' :: rest)
            hneed'.1 hbX
          rw [hshape2] at hpv
          have hskip : skipWs (jsonDumps x ++
              (xs.flatMap (fun y => ',' :: ' ' :: jsonDumps y) ++ ']' :: rest)) =
              c :: (cs ++ (xs.flatMap (fun y => ',' :: ' ' :: jsonDumps y) ++
                ']' :: rest)) := by
            rw [hshape2]
            exact skipWs_cons c _ hwsx
          rw [parseVal_bracket g _ c _ hskip hnrx _ _ hpv]
          rw [IHlist xs [reloadImage x] rest hneed'.2]
          rw [reloadImage, reloadImageList]
          simp
      | dict kvs =>
        cases kvs with
        | nil =>
          rw [jsonDumps, jsonDumpsDict, sepJoin]
          simp only [List.cons_append, List.nil_append]
          rw [parseVal_empty_dict g _ rest (skipWs_cons '}' rest (by decide)),
            reloadImage, reloadImageDict]
        | cons p kvs =>
          obtain ⟨k, v⟩ := p
          rw [jsonDumps, jsonDumpsDict_eq, List.map_cons, sepJoin,
            flatMap_map_sep]
          simp only [List.cons_append, List.append_assoc, List.nil_append]
          have hneed' : needVal v ≤ g ∧ needEntries kvs ≤ g := by
            rw [needVal, needEntries] at hneed
            have hkv : needVal (k, v).2 = needVal v := rfl
            rw [hkv] at hneed
            omega
          have hbX : numBoundary
              (kvs.flatMap (fun p => ',' :: ' ' :: entryChars p) ++ '}' :: rest) :=
            numBoundary_entries kvs rest
          have hpe := IHentry k v
            (kvs.flatMap (fun p => ',' :: ' ' :: entryChars p) ++ '}' :: rest)
            hneed'.1 hbX
          have hshape2 : ∀ X : List Char, entryChars (k, v) ++ X =
              '"' :: ((k.data.flatMap escapeChar) ++
                ('"' :: ':' :: ' ' :: (jsonDumps v ++ X))) := by
            intro X
            rw [entryChars]
            simp only [List.cons_append, List.append_assoc, List.nil_append]
          rw [hshape2] at hpe
          have hskip : skipWs (entryChars (k, v) ++
              (kvs.flatMap (fun p => ',' :: ' ' :: entryChars p) ++ '}' :: rest)) =
              '"' :: ((k.data.flatMap escapeChar) ++
                ('"' :: ':' :: ' ' :: (jsonDumps v ++
                  (kvs.flatMap (fun p => ',' :: ' ' :: entryChars p) ++
                    '}' :: rest)))) := by
            rw [hshape2]
            exact skipWs_cons '"' _ (by decide)
          rw [parseVal_brace g _ '"' _ hskip (by decide) _ _ hpe]
          rw [IHdict kvs [(k, reloadImage v)] rest hneed'.2]
          rw [reloadImage, reloadImageDict]
          simp
    -- parseDictEntry at fuel g+1 (uses parseVal at the same fuel)
    have hentry : ∀ (k : String) (v : PyVal) rest, needVal v ≤ g + 1 →
        numBoundary rest →
        parseDictEntry (g + 1) (entryChars (k, v) ++ rest) =
          some ((k, reloadImage v), rest) := by
      intro k v rest hneed hb
      have hshape2 : entryChars (k, v) ++ rest =
          '"' :: ((k.data.flatMap escapeChar) ++
            ('"' :: ':' :: ' ' :: (jsonDumps v ++ rest))) := by
        rw [entryChars]
        simp only [List.cons_append, List.append_assoc, List.nil_append]
      rw [hshape2]
      have hsb : parseStringBody ((k.data.flatMap escapeChar) ++
          ('"' :: ':' :: ' ' :: (jsonDumps v ++ rest))) =
          some (k.data, ':' :: ' ' :: (jsonDumps v ++ rest)) :=
        parseStringBody_escape k.data _
      have hskip : skipWs (':' :: ' ' :: (jsonDumps v ++ rest)) =
          ':' :: (' ' :: (jsonDumps v ++ rest)) :=
        skipWs_cons ':' _ (by decide)
      have hpv : parseVal (g + 1) (' ' :: (jsonDumps v ++ rest)) =
          some (reloadImage v, rest) := by
        rw [parseVal_ws]
        exact hval v rest hneed hb
      rw [parseDictEntry_step (g + 1) _ _ _ hsb _ hskip _ _ hpv]
    -- parseListRest at fuel g+1
    have hlist : ∀ xs acc rest, needItems xs ≤ g + 1 →
        parseListRest (g + 1) acc
          (xs.flatMap (fun y => ',' :: ' ' :: jsonDumps y) ++ ']' :: rest) =
          some (.list (acc ++ reloadImageList xs), rest) := by
      intro xs acc rest hneed
      cases xs with
      | nil =>
        rw [List.flatMap_nil, List.nil_append, parseListRest_close]
        rw [reloadImageList, List.append_nil]
      | cons x xs =>
        rw [List.flatMap_cons]
        simp only [List.cons_append, List.append_assoc]
        have hneed' : needVal x ≤ g ∧ needItems xs ≤ g := by
          rw [needItems] at hneed
          omega
        have hpv : parseVal g (' ' :: (jsonDumps x ++
            (xs.flatMap (fun y => ',' :: ' ' :: jsonDumps y) ++ ']' :: rest))) =
            some (reloadImage x,
              xs.flatMap (fun y => ',' :: ' ' :: jsonDumps y) ++ ']' :: rest) := by
          rw [parseVal_ws]
          exact IHval x _ hneed'.1 (numBoundary_items xs rest)
        rw [parseListRest_comma g acc _ _ _ hpv]
        rw [IHlist xs (acc ++ [reloadImage x]) rest hneed'.2]
        rw [reloadImageList]
        simp
    -- parseDictRest at fuel g+1
    have hdict : ∀ kvs acc rest, needEntries kvs ≤ g + 1 →
        parseDictRest (g + 1) acc
          (kvs.flatMap (fun p => ',' :: ' ' :: entryChars p) ++ '}' :: rest) =
          some (.dict (acc ++ reloadImageDict kvs), rest) := by
      intro kvs acc rest hneed
      cases kvs with
      | nil =>
        rw [List.flatMap_nil, List.nil_append, parseDictRest_close]
        rw [reloadImageDict, List.append_nil]
      | cons p kvs =>
        obtain ⟨k, v⟩ := p
        rw [List.flatMap_cons]
        simp only [List.cons_append, List.append_assoc]
        have hneed' : needVal v ≤ g ∧ needEntries kvs ≤ g := by
          rw [needEntries] at hneed
          have hkv : needVal (k, v).2 = needVal v := rfl
          rw [hkv] at hneed
          omega
        have hshape2 : entryChars (k, v) ++
            (kvs.flatMap (fun p => ',' :: ' ' :: entryChars p) ++ '}' :: rest) =
            '"' :: ((k.data.flatMap escapeChar) ++
              ('"' :: ':' :: ' ' :: (jsonDumps v ++
                (kvs.flatMap (fun p => ',' :: ' ' :: entryChars p) ++
                  '}' :: rest)))) := by
          rw [entryChars]
          simp only [List.cons_append, List.append_assoc, List.nil_append]
        have hpe : parseDictEntry g (skipWs (' ' :: (entryChars (k, v) ++
            (kvs.flatMap (fun p => ',' :: ' ' :: entryChars p) ++ '}' :: rest)))) =
            some ((k, reloadImage v),
              kvs.flatMap (fun p => ',' :: ' ' :: entryChars p) ++ '}' :: rest) := by
          rw [hws_space]
          rw [show skipWs (entryChars (k, v) ++
            (kvs.flatMap (fun p => ',' :: ' ' :: entryChars p) ++ '}' :: rest)) =
            entryChars (k, v) ++
            (kvs.flatMap (fun p => ',' :: ' ' :: entryChars p) ++ '}' :: rest) from by
              rw [hshape2]
              rw [skipWs_cons '"' _ (by decide)]]
          exact IHentry k v _ hneed'.1 (numBoundary_entries kvs rest)
        rw [parseDictRest_comma g acc _ _ _ hpe]
        rw [IHdict kvs (acc ++ [(k, reloadImage v)]) rest hneed'.2]
        rw [reloadImageDict]
        simp
    exact ⟨hval, hlist, hdict, hentry⟩

mutual

/-- The fuel `length + 1` supplied by `jsonLoads` always suffices. -/
theorem needVal_le : (v : PyVal) → needVal v ≤ (jsonDumps v).length + 1
  | .none => by rw [needVal, jsonDumps]; simp
  | .bool true => by rw [needVal, jsonDumps]; simp
  | .bool false => by rw [needVal, jsonDumps]; simp
  | .int n => by rw [needVal, jsonDumps]; omega
  | .float m e => by rw [needVal, jsonDumps]; omega
  | .dec m e => by rw [needVal, jsonDumps]; omega
  | .str s => by rw [needVal, jsonDumps]; simp
  | .list xs => by
    have h := needItems_le xs
    rw [needVal, jsonDumps, jsonDumpsList_eq]
    cases xs with
    | nil => simp [sepJoin, needItems]
    | cons x xs =>
      rw [List.map_cons, sepJoin, flatMap_map_sep]
      rw [needItems] at h ⊢
      rw [List.flatMap_cons] at h
      simp only [List.length_cons, List.length_append] at h ⊢
      omega
  | .dict kvs => by
    have h := needEntries_le kvs
    rw [needVal, jsonDumps, jsonDumpsDict_eq]
    cases kvs with
    | nil => simp [sepJoin, needEntries]
    | cons p kvs =>
      rw [List.map_cons, sepJoin, flatMap_map_sep]
      rw [needEntries] at h ⊢
      rw [List.flatMap_cons] at h
      simp only [List.length_cons, List.length_append] at h ⊢
      omega

theorem needItems_le : (xs : List PyVal) →
    needItems xs ≤ (xs.flatMap (fun y => ',' :: ' ' :: jsonDumps y)).length
  | [] => by rw [needItems]; simp
  | x :: xs => by
    have h1 := needVal_le x
    have h2 := needItems_le xs
    rw [needItems, List.flatMap_cons]
    simp only [List.length_append, List.length_cons]
    omega

theorem needEntries_le : (kvs : List (String × PyVal)) →
    needEntries kvs ≤ (kvs.flatMap (fun p => ',' :: ' ' :: entryChars p)).length
  | [] => by rw [needEntries]; simp
  | (k, v) :: kvs => by
    have h1 := needVal_le v
    have h2 := needEntries_le kvs
    rw [needEntries, List.flatMap_cons]
    have hentry : (entryChars (k, v)).length =
        (k.data.flatMap escapeChar).length + (jsonDumps v).length + 4 := by
      simp only [entryChars, List.length_cons, List.length_append,
        List.length_nil]
      omega
    simp only [List.length_append, List.length_cons]
    have hkv : needVal (k, v).2 = needVal v := rfl
    rw [hkv]
    omega

end

/-- `_serialize` is the JSON printer on every branch of its `isinstance`
chain. -/
theorem serialize_eq_dumps (v : PyVal) :
    RedisCache._serialize v = String.mk (jsonDumps v) := by
  cases v <;> rfl

/-- What `json.loads` makes of a printed value. -/
theorem jsonLoads_dumps (v : PyVal) :
    jsonLoads (String.mk (jsonDumps v)) = some (reloadImage v) := by
  have hmain := (parse_print_all ((jsonDumps v).length + 1)).1 v []
    (by have := needVal_le v; omega) trivial
  rw [List.append_nil] at hmain
  rw [jsonLoads]
  rw [show (String.mk (jsonDumps v)).data = jsonDumps v from rfl]
  rw [hmain]
  simp [skipWs]

/-- The round trip through the cache's serializer, exactly. -/
theorem deserialize_serialize (v : PyVal) :
    RedisCache._deserialize (RedisCache._serialize v) = reloadImage v := by
  rw [serialize_eq_dumps, RedisCache._deserialize, jsonLoads_dumps]

mutual

/-- The reloaded value is observably equivalent to the original. -/
theorem obsEquiv_reloadImage : (v : PyVal) → ObsEquiv (reloadImage v) v
  | .none => by rw [reloadImage]; exact .none
  | .bool b => by rw [reloadImage]; exact .bool b
  | .int n => by rw [reloadImage]; exact .int n
  | .float m e => by
    rw [reloadImage]
    by_cases he : e = 0
    · subst he
      rw [if_pos rfl]
      exact .float _ _ _ _ (by ring)
    · rw [if_neg he]
      exact .float _ _ _ _ rfl
  | .dec m e => by
    rw [reloadImage]
    by_cases he : e = 0
    · subst he
      rw [if_pos rfl]
      exact .floatDec _ _ _ _ (by ring)
    · rw [if_neg he]
      exact .floatDec _ _ _ _ rfl
  | .str s => by rw [reloadImage]; exact .str s
  | .list xs => by
    rw [reloadImage]
    exact .list (obsEquivList_reloadImage xs)
  | .dict kvs => by
    rw [reloadImage]
    exact .dict (obsEquivDict_reloadImage kvs)

theorem obsEquivList_reloadImage : (xs : List PyVal) →
    ObsEquivList (reloadImageList xs) xs
  | [] => by rw [reloadImageList]; exact .nil
  | x :: xs => by
    rw [reloadImageList]
    exact .cons (obsEquiv_reloadImage x) (obsEquivList_reloadImage xs)

theorem obsEquivDict_reloadImage : (kvs : List (String × PyVal)) →
    ObsEquivDict (reloadImageDict kvs) kvs
  | [] => by rw [reloadImageDict]; exact .nil
  | (k, v) :: kvs => by
    rw [reloadImageDict]
    exact .cons (obsEquiv_reloadImage v) (obsEquivDict_reloadImage kvs)

end

/-- **C5** (serialization round trip): for every serializable value —
primitives (strings, integers, floats, booleans, `None`), lists and
string-keyed dicts of such values, and `Decimal`-like values —
deserializing the serialized form yields exactly the reloaded image
(`Decimal`s recovered as their float encoding), which is observably
equivalent to the original value. -/
theorem serialization_round_trip (v : PyVal) :
    RedisCache._deserialize (RedisCache._serialize v) = reloadImage v ∧
    ObsEquiv (RedisCache._deserialize (RedisCache._serialize v)) v := by
  refine ⟨deserialize_serialize v, ?_⟩
  rw [deserialize_serialize v]
  exact obsEquiv_reloadImage v

/-! ## Theorems: fail-open, encoder totality -/

/-- **C2** (fail-open): for every input, if the rate limiter is not
initialized or the store call raises (`healthy = false`), `is_rate_limited`
returns not-limited with the full quota `(False, requests, period_seconds)`
and leaves the store untouched; likewise, when the cache is not initialized
the `cache` decorator invokes `func` directly and returns its result
unmodified, and when the cache store raises, the wrapper still returns the
freshly computed result — no store failure surfaces as a failure of the
protected operation. -/
theorem fail_open (st : RLStore) (cst : CacheStore) (now : ℚ) (key : String)
    (cfg : RateLimitConfig) (fp : String) (pp qp : List (String × String))
    (ipp iqp : Bool) (r : PyVal) (exp : Option ℚ) :
    is_rate_limited false st now key cfg =
      (st, false, cfg.requests, cfg.period_seconds) ∧
    (st.healthy = false →
      is_rate_limited true st now key cfg =
        (st, false, cfg.requests, cfg.period_seconds)) ∧
    cacheWrapperCall false cst now fp pp qp ipp iqp r exp = (cst, r, true) ∧
    (cst.healthy = false →
      cacheWrapperCall true cst now fp pp qp ipp iqp r exp =
        (cst, r, true)) := by
  refine ⟨rfl, ?_, rfl, ?_⟩
  · intro h
    simp [is_rate_limited, h]
  · intro h
    simp [cacheWrapperCall, RedisCache.get, RedisCache.set, h, pyIsNone]

theorem fail_open_witness :
    is_rate_limited false ⟨[], [], true⟩ 5 "c" ⟨3, 60, "rl"⟩ =
      (⟨[], [], true⟩, false, 3, 60) ∧
    is_rate_limited true ⟨[], [], false⟩ 5 "c" ⟨3, 60, "rl"⟩ =
      (⟨[], [], false⟩, false, 3, 60) ∧
    cacheWrapperCall false ⟨[], true⟩ 5 "f" [] [] false false
      (.int 1) Option.none = (⟨[], true⟩, .int 1, true) ∧
    cacheWrapperCall true ⟨[], false⟩ 5 "f" [] [] false false
      (.int 1) Option.none = (⟨[], false⟩, .int 1, true) := by
  have h1 := fail_open ⟨[], [], true⟩ ⟨[], true⟩ 5 "c" ⟨3, 60, "rl"⟩
    "f" [] [] false false (.int 1) Option.none
  have h2 := fail_open ⟨[], [], false⟩ ⟨[], false⟩ 5 "c" ⟨3, 60, "rl"⟩
    "f" [] [] false false (.int 1) Option.none
  exact ⟨h1.1, h2.2.1 rfl, h1.2.2.1, h2.2.2.2 rfl⟩

/-- **C9** (encoder totality): for every input object, the JSON encoder's
`default` handler returns normally — and whenever the `isinstance` chain of
the `try` block has no case for the object (so `super().default` raises
`TypeError`), the `except` handler degrades to the object's string
representation `str(obj)`. -/
theorem encoder_totality (obj : PyObj) :
    (∃ v, CustomJSONEncoder.default obj = .ok v) ∧
    (∀ e, CustomJSONEncoder.defaultTry obj = .error e →
      CustomJSONEncoder.default obj = .ok (.str (pyStr obj))) := by
  constructor
  · cases obj <;> exact ⟨_, rfl⟩
  · intro e he
    rw [CustomJSONEncoder.default, he]

theorem encoder_totality_witness :
    (∃ v, CustomJSONEncoder.default (PyObj.unhandled "<object at 0x1>") =
      .ok v) ∧
    (∀ e, CustomJSONEncoder.defaultTry (PyObj.unhandled "<object at 0x1>") =
        .error e →
      CustomJSONEncoder.default (PyObj.unhandled "<object at 0x1>") =
        .ok (.str (pyStr (PyObj.unhandled "<object at 0x1>")))) :=
  encoder_totality (PyObj.unhandled "<object at 0x1>")

/-! ## Theorems: invalidation -/

/-- **C7** (invalidation contract): `delete_pattern` deletes exactly the
live store keys matching the pattern and returns their count — `(st, 0)`
without error when none match, and `(st, 0)` (failure swallowed) when the
store call raises; the `invalidate_cache` wrapper runs the deletion only
after the wrapped operation returned successfully (an operation that raises
deletes nothing), and always returns the operation's result unchanged. -/
theorem invalidation_contract (st : CacheStore) (now : ℚ) (pat e : String)
    (r : PyVal) :
    (st.healthy = true →
      (RedisCache.delete_pattern st now pat).1.entries =
        st.entries.filter
          (fun en => !((matchingKeys st now pat).contains en.1)) ∧
      (RedisCache.delete_pattern st now pat).1.healthy = st.healthy ∧
      (RedisCache.delete_pattern st now pat).2 =
        (matchingKeys st now pat).length) ∧
    (matchingKeys st now pat = [] ∧ st.healthy = true →
      RedisCache.delete_pattern st now pat = (st, 0)) ∧
    (st.healthy = false → RedisCache.delete_pattern st now pat = (st, 0)) ∧
    (∀ init : Bool,
      invalidate_cache_call init st now pat (.error e) = (st, .error e)) ∧
    (invalidate_cache_call true st now pat (.ok r) =
      ((RedisCache.delete_pattern st now pat).1,
       .ok (r, (RedisCache.delete_pattern st now pat).2))) := by
  refine ⟨?_, ?_, ?_, ?_, rfl⟩
  · intro hh
    rw [RedisCache.delete_pattern, hh]
    by_cases hks : (matchingKeys st now pat).isEmpty
    · rw [List.isEmpty_iff] at hks
      simp [hks, hh]
    · simp only [Bool.not_true, Bool.false_eq_true, if_false, hks]
      simp [hh]
  · rintro ⟨hks, hh⟩
    rw [RedisCache.delete_pattern, hh, hks]
    simp
  · intro hh
    rw [RedisCache.delete_pattern, hh]
    simp
  · intro init
    rfl

theorem invalidation_contract_witness :
    matchingKeys ⟨[("pk", "v", 10), ("other", "w", 10)], true⟩ 0 "pk" =
      ["pk"] ∧
    RedisCache.delete_pattern ⟨[("pk", "v", 10), ("other", "w", 10)], true⟩
        0 "pk" = (⟨[("other", "w", 10)], true⟩, 1) ∧
    RedisCache.delete_pattern ⟨[("pk", "v", 10)], true⟩ 0 "zz" =
      (⟨[("pk", "v", 10)], true⟩, 0) ∧
    RedisCache.delete_pattern ⟨[("pk", "v", 10)], false⟩ 0 "pk" =
      (⟨[("pk", "v", 10)], false⟩, 0) ∧
    invalidate_cache_call true ⟨[("pk", "v", 10)], true⟩ 0 "pk"
      (.error "boom") = (⟨[("pk", "v", 10)], true⟩, .error "boom") := by
  have h2 := invalidation_contract ⟨[("pk", "v", 10)], true⟩ 0 "zz" "boom"
    (.int 1)
  have h3 := invalidation_contract ⟨[("pk", "v", 10)], false⟩ 0 "pk" "boom"
    (.int 1)
  have h4 := invalidation_contract ⟨[("pk", "v", 10)], true⟩ 0 "pk" "boom"
    (.int 1)
  have hq : (decide ((0 : ℚ) < 10)) = true := by norm_num
  have hdpk : ("pk" : String).data = ['p', 'k'] := rfl
  have hdot : ("other" : String).data = ['o', 't', 'h', 'e', 'r'] := rfl
  have hdzz : ("zz" : String).data = ['z', 'z'] := rfl
  have hm1 : matchingKeys ⟨[("pk", "v", 10), ("other", "w", 10)], true⟩
      0 "pk" = ["pk"] := by
    simp [matchingKeys, hq, hdpk, hdot, globMatch]
  have hm2 : matchingKeys ⟨[("pk", "v", 10)], true⟩ 0 "zz" = [] := by
    simp [matchingKeys, hq, hdpk, hdzz, globMatch]
  refine ⟨hm1, ?_, h2.2.1 ⟨hm2, rfl⟩, h3.2.2.1 rfl, h4.2.2.2.1 true⟩
  · rw [RedisCache.delete_pattern]
    rw [hm1]
    simp

/-! ## Theorems: cache-aside decorator -/

/-- Reloading a value through the JSON round trip never changes the outcome
of Python's `is None` test. -/
theorem pyIsNone_reloadImage (v : PyVal) :
    pyIsNone (reloadImage v) = pyIsNone v := by
  cases v <;> rw [reloadImage]
  all_goals first | rfl | (split <;> rfl)

/-- `lookupLive` on a store whose first entry is the looked-up key. -/
theorem lookupLive_cons_self (ents : List (String × String × ℚ)) (sv : String)
    (d now2 : ℚ) (k : String) (b : Bool) :
    lookupLive ⟨(k, sv, d) :: ents, b⟩ now2 k =
      if now2 < d then some sv else Option.none := by
  rw [lookupLive]
  rw [List.find?_cons_of_pos _ (by simp)]

/-- `RedisCache.get` on a healthy store whose first entry is the looked-up
key. -/
theorem get_cons_self (ents : List (String × String × ℚ)) (sv : String)
    (d now2 : ℚ) (k : String) :
    RedisCache.get ⟨(k, sv, d) :: ents, true⟩ now2 k =
      if now2 < d then RedisCache._deserialize sv else PyVal.none := by
  rw [RedisCache.get]
  simp only [Bool.not_true, Bool.false_eq_true, if_false]
  rw [lookupLive_cons_self]
  by_cases hlt : now2 < d <;> simp [hlt]

/-- A cache-decorator call on a miss: `func` is invoked, its result is
serialized into the store under the built key with the requested (or
default) TTL, and the result is returned. -/
theorem cacheWrapper_miss (st : CacheStore) (now : ℚ) (fp : String)
    (pp qp : List (String × String)) (ipp iqp : Bool) (r : PyVal)
    (exp : Option ℚ) (hh : st.healthy = true)
    (hmiss : RedisCache.get st now (buildCacheKey fp pp qp ipp iqp) =
      PyVal.none) :
    cacheWrapperCall true st now fp pp qp ipp iqp r exp =
      (⟨(buildCacheKey fp pp qp ipp iqp, RedisCache._serialize r,
          now + exp.getD settingsRedisCacheExpireSeconds) ::
        st.entries.filter
          (fun e => !(e.1 == buildCacheKey fp pp qp ipp iqp)), true⟩,
       r, true) := by
  rw [cacheWrapperCall]
  simp only [Bool.not_true, Bool.false_eq_true, if_false]
  rw [hmiss]
  simp only [pyIsNone, Bool.not_true, Bool.false_eq_true, if_false]
  rw [RedisCache.set, hh]
  simp

/-- **C4** (cache idempotence, amended: for every compute function whose
result is not `None`): two cache-decorator calls with identical operation
prefix and identical parameters against an initialized, error-free store,
the first a miss and the second within the TTL window, invoke `func` exactly
once — the first call invokes it and returns its result, the second call
does not invoke it and returns the cached (deserialized) result. -/
theorem cache_idempotence (st : CacheStore) (now1 now2 : ℚ) (fp : String)
    (pp qp : List (String × String)) (ipp iqp : Bool) (r : PyVal)
    (exp : Option ℚ)
    (hh : st.healthy = true)
    (hr : pyIsNone r = false)
    (hmiss : RedisCache.get st now1 (buildCacheKey fp pp qp ipp iqp) =
      PyVal.none)
    (hlive : now2 < now1 + exp.getD settingsRedisCacheExpireSeconds) :
    (cacheWrapperCall true st now1 fp pp qp ipp iqp r exp).2.2 = true ∧
    (cacheWrapperCall true st now1 fp pp qp ipp iqp r exp).2.1 = r ∧
    (cacheWrapperCall true
      (cacheWrapperCall true st now1 fp pp qp ipp iqp r exp).1 now2
      fp pp qp ipp iqp r exp).2.2 = false ∧
    (cacheWrapperCall true
      (cacheWrapperCall true st now1 fp pp qp ipp iqp r exp).1 now2
      fp pp qp ipp iqp r exp).2.1 =
      RedisCache._deserialize (RedisCache._serialize r) := by
  have h1 := cacheWrapper_miss st now1 fp pp qp ipp iqp r exp hh hmiss
  have hget := get_cons_self
    (st.entries.filter
      (fun e => !(e.1 == buildCacheKey fp pp qp ipp iqp)))
    (RedisCache._serialize r)
    (now1 + exp.getD settingsRedisCacheExpireSeconds) now2
    (buildCacheKey fp pp qp ipp iqp)
  rw [if_pos hlive] at hget
  have hnone : pyIsNone
      (RedisCache._deserialize (RedisCache._serialize r)) = false := by
    rw [deserialize_serialize, pyIsNone_reloadImage, hr]
  refine ⟨by rw [h1], by rw [h1], ?_, ?_⟩
  · rw [h1]
    rw [cacheWrapperCall]
    simp only [Bool.not_true, Bool.false_eq_true, if_false]
    rw [hget, hnone]
    simp
  · rw [h1]
    rw [cacheWrapperCall]
    simp only [Bool.not_true, Bool.false_eq_true, if_false]
    rw [hget, hnone]
    simp

theorem cache_idempotence_witness :
    (cacheWrapperCall true ⟨[], true⟩ 0 "f" [] [] false false (.int 7)
      Option.none).2.2 = true ∧
    (cacheWrapperCall true ⟨[], true⟩ 0 "f" [] [] false false (.int 7)
      Option.none).2.1 = .int 7 ∧
    (cacheWrapperCall true (cacheWrapperCall true ⟨[], true⟩ 0 "f" [] []
      false false (.int 7) Option.none).1 1 "f" [] [] false false (.int 7)
      Option.none).2.2 = false ∧
    (cacheWrapperCall true (cacheWrapperCall true ⟨[], true⟩ 0 "f" [] []
      false false (.int 7) Option.none).1 1 "f" [] [] false false (.int 7)
      Option.none).2.1 =
      RedisCache._deserialize (RedisCache._serialize (.int 7)) :=
  cache_idempotence ⟨[], true⟩ 0 1 "f" [] [] false false (.int 7)
    Option.none rfl rfl rfl
    (by norm_num [settingsRedisCacheExpireSeconds])

/-- Counterexample to C4 as literally stated ("for every compute function
... compute is invoked at most once within the TTL window"): with an
initialized, error-free store, identical prefix and parameters, and the
second call only one second after the first (well within the 300-second
default TTL), a compute function returning `None` is invoked by BOTH calls
— the stored JSON `null` deserializes to `None`, which the wrapper treats
as a miss. -/
theorem cache_idempotence_counterexample :
    (cacheWrapperCall true ⟨[], true⟩ 0 "f" [] [] false false PyVal.none
      Option.none).2.2 = true ∧
    (cacheWrapperCall true (cacheWrapperCall true ⟨[], true⟩ 0 "f" [] []
      false false PyVal.none Option.none).1 1 "f" [] [] false false
      PyVal.none Option.none).2.2 = true ∧
    (1 : ℚ) < 0 + settingsRedisCacheExpireSeconds := by
  have hmiss : RedisCache.get ⟨[], true⟩ (0 : ℚ)
      (buildCacheKey "f" [] [] false false) = PyVal.none := rfl
  have h1 := cacheWrapper_miss ⟨[], true⟩ 0 "f" [] [] false false
    PyVal.none Option.none rfl hmiss
  have hget := get_cons_self
    (List.filter (fun e => !(e.1 == buildCacheKey "f" [] [] false false)) [])
    (RedisCache._serialize PyVal.none)
    (0 + Option.getD Option.none settingsRedisCacheExpireSeconds) 1
    (buildCacheKey "f" [] [] false false)
  have hlt : (1 : ℚ) < 0 + Option.getD Option.none
      settingsRedisCacheExpireSeconds := by
    norm_num [settingsRedisCacheExpireSeconds]
  rw [if_pos hlt] at hget
  have hnone : pyIsNone
      (RedisCache._deserialize (RedisCache._serialize PyVal.none)) = true := by
    rw [deserialize_serialize, pyIsNone_reloadImage]
    rfl
  refine ⟨by rw [h1], ?_, by norm_num [settingsRedisCacheExpireSeconds]⟩
  rw [h1]
  rw [cacheWrapperCall]
  simp only [Bool.not_true, Bool.false_eq_true, if_false]
  rw [hget, hnone]
  simp

/-- **C10** (implicit `None`-caching behavior): `RedisCache.get` returns
`None` when the key is absent or expired and when the store raises; the
cache decorator treats a `None` cached result as a miss; consequently a
compute function returning `None` has its result stored as JSON `"null"`
with the TTL, yet compute is re-invoked on every subsequent call — the
stored `null` is never served. -/
theorem none_result_never_served (st : CacheStore) (now now2 : ℚ)
    (fp : String) (pp qp : List (String × String)) (ipp iqp : Bool)
    (exp : Option ℚ)
    (hh : st.healthy = true)
    (hmiss : RedisCache.get st now (buildCacheKey fp pp qp ipp iqp) =
      PyVal.none) :
    (∀ (st1 : CacheStore) (n1 : ℚ) (k1 : String),
      lookupLive st1 n1 k1 = Option.none →
      RedisCache.get st1 n1 k1 = PyVal.none) ∧
    (∀ (st1 : CacheStore) (n1 : ℚ) (k1 : String), st1.healthy = false →
      RedisCache.get st1 n1 k1 = PyVal.none) ∧
    RedisCache._serialize PyVal.none = "null" ∧
    (cacheWrapperCall true st now fp pp qp ipp iqp PyVal.none exp).2.2 =
      true ∧
    lookupLive (cacheWrapperCall true st now fp pp qp ipp iqp PyVal.none
        exp).1 now2 (buildCacheKey fp pp qp ipp iqp) =
      (if now2 < now + exp.getD settingsRedisCacheExpireSeconds
       then some (RedisCache._serialize PyVal.none) else Option.none) ∧
    (cacheWrapperCall true
      (cacheWrapperCall true st now fp pp qp ipp iqp PyVal.none exp).1 now2
      fp pp qp ipp iqp PyVal.none exp).2.2 = true := by
  have h1 := cacheWrapper_miss st now fp pp qp ipp iqp PyVal.none exp hh hmiss
  have hnone : pyIsNone
      (RedisCache._deserialize (RedisCache._serialize PyVal.none)) = true := by
    rw [deserialize_serialize, pyIsNone_reloadImage]
    rfl
  refine ⟨?_, ?_, ?_, by rw [h1], ?_, ?_⟩
  · intro st1 n1 k1 hl
    cases hhe : st1.healthy <;> simp [RedisCache.get, hhe, hl]
  · intro st1 n1 k1 hhe
    simp [RedisCache.get, hhe]
  · rw [serialize_eq_dumps, jsonDumps]
  · rw [h1]
    rw [lookupLive_cons_self]
  · rw [h1]
    rw [cacheWrapperCall]
    simp only [Bool.not_true, Bool.false_eq_true, if_false]
    have hget := get_cons_self
      (st.entries.filter
        (fun e => !(e.1 == buildCacheKey fp pp qp ipp iqp)))
      (RedisCache._serialize PyVal.none)
      (now + exp.getD settingsRedisCacheExpireSeconds) now2
      (buildCacheKey fp pp qp ipp iqp)
    by_cases hlt : now2 < now + exp.getD settingsRedisCacheExpireSeconds
    · rw [if_pos hlt] at hget
      rw [hget, hnone]
      simp
    · rw [if_neg hlt] at hget
      rw [hget]
      simp [pyIsNone]

theorem none_result_never_served_witness :
    (∀ (st1 : CacheStore) (n1 : ℚ) (k1 : String),
      lookupLive st1 n1 k1 = Option.none →
      RedisCache.get st1 n1 k1 = PyVal.none) ∧
    (∀ (st1 : CacheStore) (n1 : ℚ) (k1 : String), st1.healthy = false →
      RedisCache.get st1 n1 k1 = PyVal.none) ∧
    RedisCache._serialize PyVal.none = "null" ∧
    (cacheWrapperCall true ⟨[], true⟩ 0 "f" [] [] false false PyVal.none
      Option.none).2.2 = true ∧
    lookupLive (cacheWrapperCall true ⟨[], true⟩ 0 "f" [] [] false false
        PyVal.none Option.none).1 1 (buildCacheKey "f" [] [] false false) =
      (if (1 : ℚ) < 0 + Option.getD Option.none settingsRedisCacheExpireSeconds
       then some (RedisCache._serialize PyVal.none) else Option.none) ∧
    (cacheWrapperCall true
      (cacheWrapperCall true ⟨[], true⟩ 0 "f" [] [] false false PyVal.none
        Option.none).1 1 "f" [] [] false false PyVal.none
      Option.none).2.2 = true :=
  none_result_never_served ⟨[], true⟩ 0 1 "f" [] [] false false
    Option.none rfl rfl

end ApiPerf
